import Mathlib

/-!
Verification development for the bank-statement accounting pipeline
(`accounting_app`): shallow embedding of the parser, categorizer, journal
generator and ledger manager, together with theorems settling the frozen
claims about them.

Python `float` arithmetic on amounts is modelled by exact rationals (`ℚ`);
all amounts flowing through the program are small decimal numbers, for
which float arithmetic is exact except for sub-cent representation noise
that none of the claims depend on.  Python `round(x, 2)` and the `"{:,.2f}"`
format rounding are modelled as round-half-to-even on rationals.
Character classes (`\d`, `\s`, `\w`) are modelled over ASCII; the program's
regexes and keyword tables are ASCII.
-/

/-! ### Small character and string helpers (Python semantics) -/

/-- ASCII model of Python's `\s` / `str.strip` whitespace set. -/
def pySpace (c : Char) : Bool :=
  c = ' ' || c = '\t' || c = '\n' || c = '\r' || c = '\x0b' || c = '\x0c'

/-- `str.strip()` on a character list. -/
def pyStripL (l : List Char) : List Char :=
  ((l.dropWhile pySpace).reverse.dropWhile pySpace).reverse

/-- `str.strip()`. -/
def pyStrip (s : String) : String :=
  String.mk (pyStripL s.data)

/-- ASCII `str.upper()` on one character. -/
def pyUpperC (c : Char) : Char :=
  if 'a' ≤ c ∧ c ≤ 'z' then Char.ofNat (c.toNat - 32) else c

/-- ASCII `str.lower()` on one character. -/
def pyLowerC (c : Char) : Char :=
  if 'A' ≤ c ∧ c ≤ 'Z' then Char.ofNat (c.toNat + 32) else c

/-- ASCII `str.upper()`. -/
def pyUpper (s : String) : String := String.mk (s.data.map pyUpperC)

/-- ASCII `str.lower()`. -/
def pyLower (s : String) : String := String.mk (s.data.map pyLowerC)

/-- Does `needle` occur as a contiguous substring of `hay`?  (Python `in`.) -/
def occursIn (needle : List Char) : List Char → Bool
  | [] => needle.isPrefixOf []
  | c :: rest => needle.isPrefixOf (c :: rest) || occursIn needle rest

/-- Python `needle in hay` on strings. -/
def pyContains (hay needle : String) : Bool := occursIn needle.data hay.data

/-- One rewriting step of Python `str.replace(old, new)`: replace all
non-overlapping occurrences left to right.  `old` is assumed nonempty
(as at every call site in the program). -/
def replaceSubAux (old new : List Char) : ℕ → List Char → List Char
  | 0, l => l
  | fuel + 1, l =>
    match l with
    | [] => []
    | c :: rest =>
      if old ≠ [] ∧ old.isPrefixOf (c :: rest) then
        new ++ replaceSubAux old new fuel (rest.drop (old.length - 1))
      else
        c :: replaceSubAux old new fuel rest

def replaceSubL (old new l : List Char) : List Char :=
  replaceSubAux old new l.length l

/-- Python `str.replace`. -/
def pyReplace (s old new : String) : String :=
  String.mk (replaceSubL old.data new.data s.data)

/-! ### Decimal digits, `int`/`float` parsing and `"{:,.2f}"` formatting -/

/-- The decimal digit characters, as an explicit table so that
`digitVal (digitChar d) = d` is provable by case analysis. -/
def digitChar (d : ℕ) : Char :=
  match d with
  | 0 => '0' | 1 => '1' | 2 => '2' | 3 => '3' | 4 => '4'
  | 5 => '5' | 6 => '6' | 7 => '7' | 8 => '8' | _ => '9'

def digitVal (c : Char) : ℕ := c.toNat - 48

/-- Numeric value of a big-endian digit string (Python `int` on digits). -/
def natVal (l : List Char) : ℕ :=
  l.foldl (fun a c => 10 * a + digitVal c) 0

/-- Little-endian decimal digits of `n`, with explicit fuel so the
definition is structural and kernel-reducible. -/
def decDigitsAux : ℕ → ℕ → List ℕ
  | 0, _ => []
  | fuel + 1, n => if n < 10 then [n] else n % 10 :: decDigitsAux fuel (n / 10)

def decDigitsLE (n : ℕ) : List ℕ := decDigitsAux (n + 1) n

/-- Big-endian decimal digit characters of `n` (`"0"` for `0`). -/
def decDigits (n : ℕ) : List Char :=
  ((decDigitsLE n).map digitChar).reverse

/-- Insert a `','` after every three characters of a little-endian digit
list (helper for Python's `"{:,}"` thousands grouping). -/
def group3Aux : ℕ → List Char → List Char
  | 0, l => l
  | fuel + 1, l =>
    if l.length ≤ 3 then l else l.take 3 ++ ',' :: group3Aux fuel (l.drop 3)

/-- Python `"{:,}"` thousands grouping of a big-endian digit string. -/
def groupDigits (ds : List Char) : List Char :=
  (group3Aux ds.length ds.reverse).reverse

/-- Python `int()` restricted to the optional-sign decimal forms that can
reach it in this program. -/
def pyInt (l : List Char) : Option ℤ :=
  match l with
  | '-' :: body =>
    if body ≠ [] ∧ body.all Char.isDigit then some (-(natVal body : ℤ)) else none
  | '+' :: body =>
    if body ≠ [] ∧ body.all Char.isDigit then some (natVal body : ℤ) else none
  | body =>
    if body ≠ [] ∧ body.all Char.isDigit then some (natVal body : ℤ) else none

/-- Split a character list at its first `'.'`; `none` if it holds more than
one `'.'`. -/
def splitDot (l : List Char) : Option (List Char × List Char) :=
  let ip := l.takeWhile (fun c => c ≠ '.')
  match l.dropWhile (fun c => c ≠ '.') with
  | [] => some (l, [])
  | _ :: fp => if fp.contains '.' then none else some (ip, fp)

/-!
Rational values are built and inspected through `mkRat` and the `num`/`den`
fields rather than through the (kernel-irreducible) `ℚ` field operations,
so that all of the following definitions evaluate inside `decide`/`rfl`
proofs.  Bridging lemmas relate them to the ordinary `ℚ` operations. -/

/-- `100 · q`, computed on the numerator. -/
def qMul100 (q : ℚ) : ℚ := mkRat (q.num * 100) q.den

/-- `|q|`, computed on the numerator. -/
def qAbs (q : ℚ) : ℚ := mkRat |q.num| q.den

/-- `q < 0` as a Boolean, decided on the numerator. -/
def qIsNeg (q : ℚ) : Bool := q.num < 0

/-- Python `float()` restricted to the optional-sign fixed-point decimal
forms that can reach it in this program (the amount cleaners only ever
hand it digits, `'.'` and signs; exponent, `inf` and `nan` forms are
unreachable).  The value `intpart.fracpart` is the exact rational
`(intpart·10^k + fracpart) / 10^k`. -/
def pyFloat (l : List Char) : Option ℚ :=
  let neg : Bool := l.head? = some '-'
  let body := if l.head? = some '-' ∨ l.head? = some '+' then l.tail else l
  match splitDot body with
  | none => none
  | some (ip, fp) =>
    if (ip ++ fp).all Char.isDigit ∧ ip ++ fp ≠ [] then
      let n : ℤ := (natVal ip : ℤ) * (10 : ℤ) ^ fp.length + (natVal fp : ℤ)
      some (mkRat (if neg then -n else n) ((10 : ℕ) ^ fp.length))
    else none

/-- Round-half-to-even to an integer; models Python `round` and the
rounding of `"{:.2f}"` (exactly, up to float representation noise that no
claim depends on).  With `f = ⌊q⌋` and `r = q - f ∈ [0,1)`, the fraction
`r` compares to `1/2` as `2·(q.num - f·q.den)` compares to `q.den`. -/
def roundHalfEven (q : ℚ) : ℤ :=
  let f := Int.fdiv q.num q.den
  let rnum := q.num - f * (q.den : ℤ)
  if 2 * rnum < (q.den : ℤ) then f
  else if (q.den : ℤ) < 2 * rnum then f + 1
  else if 2 ∣ f then f else f + 1

/-- Python `round(x, 2)` on the rational model. -/
def round2 (q : ℚ) : ℚ := mkRat (roundHalfEven (qMul100 q)) 100

/-- Two-digit zero-padded decimal (the fraction part of `"{:.2f}"`). -/
def pad2 (n : ℕ) : List Char :=
  if n < 10 then ['0', digitChar n] else [digitChar (n / 10), digitChar (n % 10)]

/-- Python `"{:,.2f}".format(q)` for `q ≥ 0`: round to cents (half-even),
group the integer part with commas, two fraction digits. -/
def pyFormatComma2 (q : ℚ) : List Char :=
  let cents := (roundHalfEven (qMul100 q)).toNat
  groupDigits (decDigits (cents / 100)) ++ '.' :: pad2 (cents % 100)

/-- Python `f"{q:,.2f}"` including the sign (used for narrations). -/
def pyFormatSigned2 (q : ℚ) : List Char :=
  if qIsNeg q then '-' :: pyFormatComma2 (qAbs q) else pyFormatComma2 q

/-! ### `parser/amount_parser.py` — `AmountParser`

The five `amount_patterns` and the final fallback regex of
`_clean_amount_string` are each transcribed as a dedicated leftmost
`re.search` scanner over the character list.  Each scanner tries match
positions left to right exactly as `re.search` does; at a given start
position the regexes involved admit no interior backtracking beyond what
the scanner reproduces (the character classes of adjacent pieces are
disjoint), so the returned capture is exactly `match.group()`. -/

/-- The class `[\d,]`. -/
def digitComma (c : Char) : Bool := c.isDigit || c = ','

/-- `re.search(r'[\d,]+\.\d{2}', s)`: at each start, the greedy
`[\d,]+` run must be immediately followed by `'.'` and two digits. -/
def amtSearch1 : List Char → Option (List Char)
  | [] => none
  | c :: cs =>
    if digitComma c then
      match (c :: cs).dropWhile digitComma with
      | '.' :: d1 :: d2 :: _ =>
        if d1.isDigit && d2.isDigit then
          some ((c :: cs).takeWhile digitComma ++ ['.', d1, d2])
        else amtSearch1 cs
      | _ => amtSearch1 cs
    else amtSearch1 cs

/-- `re.search(r'[\d,]+\.\d{1}', s)`. -/
def amtSearch2 : List Char → Option (List Char)
  | [] => none
  | c :: cs =>
    if digitComma c then
      match (c :: cs).dropWhile digitComma with
      | '.' :: d1 :: _ =>
        if d1.isDigit then
          some ((c :: cs).takeWhile digitComma ++ ['.', d1])
        else amtSearch2 cs
      | _ => amtSearch2 cs
    else amtSearch2 cs

/-- `re.search(r'[\d,]+', s)`: leftmost maximal `[\d,]` run. -/
def amtSearch3 : List Char → Option (List Char)
  | [] => none
  | c :: cs =>
    if digitComma c then some ((c :: cs).takeWhile digitComma)
    else amtSearch3 cs

/-- `re.search(r'\d+\.\d{2}', s)`. -/
def amtSearch4 : List Char → Option (List Char)
  | [] => none
  | c :: cs =>
    if c.isDigit then
      match (c :: cs).dropWhile Char.isDigit with
      | '.' :: d1 :: d2 :: _ =>
        if d1.isDigit && d2.isDigit then
          some ((c :: cs).takeWhile Char.isDigit ++ ['.', d1, d2])
        else amtSearch4 cs
      | _ => amtSearch4 cs
    else amtSearch4 cs

/-- `re.search(r'\d+\.\d{1}', s)`. -/
def amtSearch5 : List Char → Option (List Char)
  | [] => none
  | c :: cs =>
    if c.isDigit then
      match (c :: cs).dropWhile Char.isDigit with
      | '.' :: d1 :: _ =>
        if d1.isDigit then
          some ((c :: cs).takeWhile Char.isDigit ++ ['.', d1])
        else amtSearch5 cs
      | _ => amtSearch5 cs
    else amtSearch5 cs

/-- The prefix of `run` ending at its last digit (backtracked greedy
`[\d,]*` followed by `\d+` inside a `[\d,]` run). -/
def upToLastDigit (run : List Char) : List Char :=
  ((run.reverse.dropWhile (fun c => !c.isDigit)).reverse)

/-- `re.search(r'[\d,]*\.?\d+', s)` (the digits-and-decimal fallback).
At a start position with maximal `[\d,]` run `R`: if `R` is followed by
`'.'` and a digit the match is `R ++ '.' ++ digits` (greedy `[\d,]*`
keeps all of `R`, `\.?` takes the dot, `\d+` the following digit run);
otherwise, if `R` contains a digit, backtracking of `[\d,]*` yields
`R` cut after its last digit; otherwise the scan advances one position,
exactly as `re.search` does. -/
def amtSearch6 : List Char → Option (List Char)
  | [] => none
  | c :: cs =>
    match (c :: cs).dropWhile digitComma with
    | '.' :: d1 :: ds =>
      if d1.isDigit then
        some ((c :: cs).takeWhile digitComma ++ '.' :: d1 :: ds.takeWhile Char.isDigit)
      else if ((c :: cs).takeWhile digitComma).any Char.isDigit then
        some (upToLastDigit ((c :: cs).takeWhile digitComma))
      else amtSearch6 cs
    | _ =>
      if ((c :: cs).takeWhile digitComma).any Char.isDigit then
        some (upToLastDigit ((c :: cs).takeWhile digitComma))
      else amtSearch6 cs

/-- `AmountParser._clean_amount_string`: strip, rewrite a fully
parenthesised amount to a leading `'-'`, then try the five amount
patterns and the fallback in order. -/
def clean_amount_string (s : String) : Option (List Char) :=
  let t0 := pyStripL s.data
  let t :=
    if t0.head? = some '(' ∧ t0.getLast? = some ')' then
      '-' :: (t0.drop 1).dropLast
    else t0
  match amtSearch1 t with
  | some m => some m
  | none =>
  match amtSearch2 t with
  | some m => some m
  | none =>
  match amtSearch3 t with
  | some m => some m
  | none =>
  match amtSearch4 t with
  | some m => some m
  | none =>
  match amtSearch5 t with
  | some m => some m
  | none => amtSearch6 t

/-- `AmountParser.parse_amount`: clean, drop commas, `float`, `round(·, 2)`.
A `float` failure (e.g. the cleaned string was only commas) yields `none`. -/
def parse_amount (s : String) : Option ℚ :=
  if s.data = [] then none
  else
    match clean_amount_string s with
    | none => none
    | some [] => none
    | some e =>
      match pyFloat (e.filter (fun c => c ≠ ',')) with
      | none => none
      | some q => some (round2 q)

/-- `AmountParser.format_amount`: `"{:,.2f}"` of the absolute value,
parenthesised when negative, optionally prefixed with the currency
marker exactly as it appears in the source file. -/
def format_amount (amount : ℚ) (include_currency : Bool) : String :=
  let formatted := String.mk (pyFormatComma2 (qAbs amount))
  let formatted := if qIsNeg amount then "(" ++ formatted ++ ")" else formatted
  if include_currency then "â‚¹" ++ formatted else formatted

/-! ### A small backtracking regex engine

`regex_patterns.py` and `date_parser.py` use Python `re` with
`IGNORECASE | MULTILINE`.  The engine below implements exactly the
constructs those patterns use: character classes, concatenation,
alternation (left preferred), greedy and lazy star, numbered capturing
groups, and the `^`/`$` anchors.  Backtracking order matches CPython's
NFA engine: greedy pieces try the longer match first, lazy pieces the
shorter, alternatives left to right — so the first (leftmost-preferred)
match and its group spans coincide with `re`'s.  Case-insensitive
literals are expanded into two-character classes at transcription time.
`^`/`$` follow MULTILINE semantics (they also fire around an embedded
newline). -/

inductive RE where
  | cls (p : Char → Bool)
  | seq (a b : RE)
  | alt (a b : RE)
  | grp (i : Nat) (r : RE)
  | starG (r : RE)
  | starL (r : RE)
  | bol
  | eol
  | eps

/-- Captured group spans: `(group index, start, stop)`, most recent first. -/
abbrev Caps := List (Nat × Nat × Nat)

/-- CPS backtracking matcher.  `rem` is the input suffix at position
`pos` of the full input `s`; `k` is the continuation receiving the
remaining suffix, position and captures.  The fuel bounds the nesting
depth of engine steps (each nested step decrements it once), keeping the
recursion structural; all uses supply ample fuel. -/
def reRun (s : List Char) :
    ℕ → RE → List Char → ℕ → Caps → (List Char → ℕ → Caps → Option Caps) →
    Option Caps
  | 0, _, _, _, _, _ => none
  | fuel + 1, re, rem, pos, caps, k =>
    match re with
    | .cls p =>
      match rem with
      | [] => none
      | c :: rest => if p c then k rest (pos + 1) caps else none
    | .seq a b =>
      reRun s fuel a rem pos caps fun rem1 pos1 caps1 =>
        reRun s fuel b rem1 pos1 caps1 k
    | .alt a b =>
      match reRun s fuel a rem pos caps k with
      | some r => some r
      | none => reRun s fuel b rem pos caps k
    | .grp i r =>
      reRun s fuel r rem pos caps fun rem1 pos1 caps1 =>
        k rem1 pos1 ((i, pos, pos1) :: caps1)
    | .starG r =>
      match reRun s fuel r rem pos caps (fun rem1 pos1 caps1 =>
          if pos1 = pos then none else reRun s fuel (.starG r) rem1 pos1 caps1 k) with
      | some res => some res
      | none => k rem pos caps
    | .starL r =>
      match k rem pos caps with
      | some res => some res
      | none =>
        reRun s fuel r rem pos caps fun rem1 pos1 caps1 =>
          if pos1 = pos then none else reRun s fuel (.starL r) rem1 pos1 caps1 k
    | .bol =>
      if pos = 0 then k rem pos caps
      else if (s.drop (pos - 1)).head? = some '\n' then k rem pos caps
      else none
    | .eol =>
      match rem with
      | [] => k rem pos caps
      | c :: _ => if c = '\n' then k rem pos caps else none
    | .eps => k rem pos caps

/-- `r+` (greedy). -/
def rePlus (r : RE) : RE := .seq r (.starG r)

/-- `r?` (greedy). -/
def reOpt (r : RE) : RE := .alt r .eps

/-- `r` repeated exactly `n` times. -/
def reExact : ℕ → RE → RE
  | 0, _ => .eps
  | n + 1, r => .seq r (reExact n r)

/-- Up to `n` further greedy repetitions of `r`. -/
def reUpTo : ℕ → RE → RE
  | 0, _ => .eps
  | n + 1, r => .alt (.seq r (reUpTo n r)) .eps

/-- `r{lo,hi}` (greedy). -/
def reRep (lo hi : ℕ) (r : RE) : RE := .seq (reExact lo r) (reUpTo (hi - lo) r)

/-- A single literal character. -/
def rchar (c : Char) : RE := .cls (fun x => x = c)

/-- One character, case-insensitively (`IGNORECASE` literal). -/
def rci (u l : Char) : RE := .cls (fun x => x = u || x = l)

/-- Fold a list of regexes into a sequence. -/
def reCat (l : List RE) : RE := l.foldr RE.seq .eps

/-- Fold a nonempty list of regexes into a left-preferring alternation. -/
def reAlts : List RE → RE
  | [] => .eps
  | [r] => r
  | r :: rest => .alt r (reAlts rest)

/-- `\d`. -/
def rdigit : RE := .cls Char.isDigit

/-- `\s` (ASCII). -/
def rspace : RE := .cls pySpace

/-- `.` (any character but newline). -/
def rany : RE := .cls (fun c => c ≠ '\n')

/-- The class of `'/'` or `'-'` (a slash-dash separator class). -/
def rslashdash : RE := .cls (fun c => c = '/' || c = '-')

/-- `[\d,]`. -/
def rdigitComma : RE := .cls digitComma

/-- The class of letters, digits, slash and dash, under `IGNORECASE`. -/
def rupperAlnumSD : RE :=
  .cls (fun c => ('A' ≤ c ∧ c ≤ 'Z') || ('a' ≤ c ∧ c ≤ 'z') || c.isDigit || c = '/' || c = '-')

/-- `[A-Z0-9]` under `IGNORECASE`. -/
def rupperAlnum : RE :=
  .cls (fun c => ('A' ≤ c ∧ c ≤ 'Z') || ('a' ≤ c ∧ c ≤ 'z') || c.isDigit)

/-- `\s+`. -/
def rwsPlus : RE := rePlus rspace

/-- `\s*`. -/
def rwsStar : RE := .starG rspace

/-- A case-insensitive literal word. -/
def rciWord (l : List (Char × Char)) : RE :=
  reCat (l.map fun p => rci p.1 p.2)

/-- `(CR|DR|Cr|Dr)` and the two-alternative variants, under `IGNORECASE`:
every branch matches the same two caseless letter sequences. -/
def rCRDR2 : RE :=
  reAlts [rciWord [('C', 'c'), ('R', 'r')], rciWord [('D', 'd'), ('R', 'r')]]

def rCRDR4 : RE :=
  reAlts [rciWord [('C', 'c'), ('R', 'r')], rciWord [('D', 'd'), ('R', 'r')],
          rciWord [('C', 'c'), ('R', 'r')], rciWord [('D', 'd'), ('R', 'r')]]

/-- Ample fuel for the engine: nesting depth of engine steps is bounded
by a small multiple of pattern size times input length. -/
def reFuel (s : List Char) : ℕ := 200 * (s.length + 5)

/-- `pattern.match(line)` returning `groups()`: run anchored at position
0 and extract the `n` numbered group strings (in these patterns every
group participates in any successful match). -/
def reMatchGroups (r : RE) (n : ℕ) (s : List Char) : Option (List String) :=
  match reRun s (reFuel s) r s 0 [] (fun _ _ caps => some caps) with
  | none => none
  | some caps =>
    some ((List.range n).map fun j =>
      match caps.find? (fun t => t.1 = j + 1) with
      | some t => String.mk ((s.drop t.2.1).take (t.2.2 - t.2.1))
      | none => "")

/-- Does `r` match a prefix of `s` (Python `re.match` as a test)? -/
def reMatchesAt0 (r : RE) (s : List Char) : Bool :=
  (reRun s (reFuel s) r s 0 [] (fun _ _ caps => some caps)).isSome

/-! ### `parser/regex_patterns.py` — the default bank patterns

Each default pattern string is transcribed node by node; the group
numbers follow the order of the opening parentheses.  The source
compiles every pattern with `re.IGNORECASE | re.MULTILINE`.
In the quoted pattern strings below, the division-slash `∕` stands for
the ASCII slash of the source regex (which cannot appear next to a dash
inside a Lean comment). -/

/-- `\d{1,2} sep \d{1,2} sep \d{2,4}` with a fixed separator. -/
def reDate24 (sep : RE) : RE :=
  reCat [reRep 1 2 rdigit, sep, reRep 1 2 rdigit, sep, reRep 2 4 rdigit]

/-- `\d{1,2} sep \d{1,2} sep \d{4}` with a fixed separator. -/
def reDate4 (sep : RE) : RE :=
  reCat [reRep 1 2 rdigit, sep, reRep 1 2 rdigit, sep, reExact 4 rdigit]

/-- The amount piece `[\d,]+\.?\d{0,2}`. -/
def reAmount : RE :=
  reCat [rePlus rdigitComma, reOpt (rchar '.'), reRep 0 2 rdigit]

/-- hdfc 1: `^(\d{1,2}/\d{1,2}/\d{2,4})\s+(.*?)\s+([\d,]+\.?\d{0,2})\s+(CR|DR)\s*(.*)$` -/
def reHdfc1 : RE :=
  reCat [.bol, .grp 1 (reDate24 (rchar '/')), rwsPlus, .grp 2 (.starL rany), rwsPlus,
         .grp 3 reAmount, rwsPlus, .grp 4 rCRDR2, rwsStar, .grp 5 (.starG rany), .eol]

/-- hdfc 2:
`^(\d{1,2}/\d{1,2}/\d{4})\s+([A-Z0-9∕-]+)\s+(.*?)\s+([\d,]+\.?\d{0,2})\s+(CR|DR)\s*(.*)$` -/
def reHdfc2 : RE :=
  reCat [.bol, .grp 1 (reDate4 (rchar '/')), rwsPlus, .grp 2 (rePlus rupperAlnumSD), rwsPlus,
         .grp 3 (.starL rany), rwsPlus, .grp 4 reAmount, rwsPlus, .grp 5 rCRDR2, rwsStar,
         .grp 6 (.starG rany), .eol]

/-- sbi 1: `^(\d{1,2}-\d{1,2}-\d{2,4})\s+(.*?)\s+([\d,]+\.?\d{0,2})\s+(CR|DR)\s*(.*)$` -/
def reSbi1 : RE :=
  reCat [.bol, .grp 1 (reDate24 (rchar '-')), rwsPlus, .grp 2 (.starL rany), rwsPlus,
         .grp 3 reAmount, rwsPlus, .grp 4 rCRDR2, rwsStar, .grp 5 (.starG rany), .eol]

/-- sbi 2:
`^(\d{1,2}-\d{1,2}-\d{4})\s+(.*?)\s+(CHQ\s+\d+)\s+([\d,]+\.?\d{0,2})\s+(CR|DR)\s*(.*)$` -/
def reSbi2 : RE :=
  reCat [.bol, .grp 1 (reDate4 (rchar '-')), rwsPlus, .grp 2 (.starL rany), rwsPlus,
         .grp 3 (reCat [rciWord [('C', 'c'), ('H', 'h'), ('Q', 'q')], rwsPlus, rePlus rdigit]),
         rwsPlus, .grp 4 reAmount, rwsPlus, .grp 5 rCRDR2, rwsStar, .grp 6 (.starG rany), .eol]

/-- icici 1:
`^(\d{1,2}/\d{1,2}/\d{4})\s+(.*?)\s+([\d,]+\.?\d{0,2})\s+(Cr|Dr)\s+([\d,]+\.?\d{0,2})$` -/
def reIcici1 : RE :=
  reCat [.bol, .grp 1 (reDate4 (rchar '/')), rwsPlus, .grp 2 (.starL rany), rwsPlus,
         .grp 3 reAmount, rwsPlus, .grp 4 rCRDR2, rwsPlus, .grp 5 reAmount, .eol]

/-- icici 2: `^(\d{1,2}/\d{1,2}/\d{4})\s+(UPI/.*?)\s+([\d,]+\.?\d{0,2})\s+(Cr|Dr)$` -/
def reIcici2 : RE :=
  reCat [.bol, .grp 1 (reDate4 (rchar '/')), rwsPlus,
         .grp 2 (reCat [rciWord [('U', 'u'), ('P', 'p'), ('I', 'i')], rchar '/', .starL rany]),
         rwsPlus, .grp 3 reAmount, rwsPlus, .grp 4 rCRDR2, .eol]

/-- axis 1: `^(\d{1,2}/\d{1,2}/\d{4})\s+(.*?)\s+([\d,]+\.?\d{0,2})\s+(CR|DR)$` -/
def reAxis1 : RE :=
  reCat [.bol, .grp 1 (reDate4 (rchar '/')), rwsPlus, .grp 2 (.starL rany), rwsPlus,
         .grp 3 reAmount, rwsPlus, .grp 4 rCRDR2, .eol]

/-- axis 2: `^(\d{1,2}/\d{1,2}/\d{4})\s+(NEFT|IMPS|RTGS).*?\s+([\d,]+\.?\d{0,2})\s+(CR|DR)$` -/
def reAxis2 : RE :=
  reCat [.bol, .grp 1 (reDate4 (rchar '/')), rwsPlus,
         .grp 2 (reAlts
           [rciWord [('N', 'n'), ('E', 'e'), ('F', 'f'), ('T', 't')],
            rciWord [('I', 'i'), ('M', 'm'), ('P', 'p'), ('S', 's')],
            rciWord [('R', 'r'), ('T', 't'), ('G', 'g'), ('S', 's')]]),
         .starL rany, rwsPlus, .grp 3 reAmount, rwsPlus, .grp 4 rCRDR2, .eol]

/-- generic 1:
`^(\d{1,2}[∕-]\d{1,2}[∕-]\d{2,4})\s+(.*?)\s+([\d,]+\.?\d{0,2})\s+(CR|DR|Cr|Dr)\s*(.*)$` -/
def reGeneric1 : RE :=
  reCat [.bol, .grp 1 (reDate24 rslashdash), rwsPlus, .grp 2 (.starL rany), rwsPlus,
         .grp 3 reAmount, rwsPlus, .grp 4 rCRDR4, rwsStar, .grp 5 (.starG rany), .eol]

/-- generic 2:
`^(\d{1,2}[∕-]\d{1,2}[∕-]\d{2,4})\s+(.*?)\s+(CR|DR|Cr|Dr)\s+([\d,]+\.?\d{0,2})\s*(.*)$` -/
def reGeneric2 : RE :=
  reCat [.bol, .grp 1 (reDate24 rslashdash), rwsPlus, .grp 2 (.starL rany), rwsPlus,
         .grp 3 rCRDR4, rwsPlus, .grp 4 reAmount, rwsStar, .grp 5 (.starG rany), .eol]

/-- generic 3:
`^(\d{1,2}[∕-]\d{1,2}[∕-]\d{4})\s+([A-Z0-9]+)\s+(.*?)\s+([\d,]+\.?\d{0,2})\s+(CR|DR)\s*(.*)$` -/
def reGeneric3 : RE :=
  reCat [.bol, .grp 1 (reDate4 rslashdash), rwsPlus, .grp 2 (rePlus rupperAlnum), rwsPlus,
         .grp 3 (.starL rany), rwsPlus, .grp 4 reAmount, rwsPlus, .grp 5 rCRDR2, rwsStar,
         .grp 6 (.starG rany), .eol]

/-- generic 4 (multi-line form):
`^(\d{1,2}[∕-]\d{1,2}[∕-]\d{4})\s*$\s*^(.*?)\s+([\d,]+\.?\d{0,2})\s+(CR|DR)\s*(.*)$` -/
def reGeneric4 : RE :=
  reCat [.bol, .grp 1 (reDate4 rslashdash), rwsStar, .eol, rwsStar, .bol,
         .grp 2 (.starL rany), rwsPlus, .grp 3 reAmount, rwsPlus, .grp 4 rCRDR2, rwsStar,
         .grp 5 (.starG rany), .eol]

/-- The compiled default pattern table (pattern, number of groups). -/
def bankPatternTable : List (String × List (RE × ℕ)) :=
  [("hdfc", [(reHdfc1, 5), (reHdfc2, 6)]),
   ("sbi", [(reSbi1, 5), (reSbi2, 6)]),
   ("icici", [(reIcici1, 5), (reIcici2, 4)]),
   ("axis", [(reAxis1, 4), (reAxis2, 4)]),
   ("generic", [(reGeneric1, 5), (reGeneric2, 5), (reGeneric3, 6), (reGeneric4, 5)])]

/-- `self.compiled_patterns.get(bank_type, [])`. -/
def patternsFor (bank_type : String) : List (RE × ℕ) :=
  match bankPatternTable.find? (fun e => e.1 = bank_type) with
  | some e => e.2
  | none => []

/-- First pattern that matches wins. -/
def firstMatch (l : List Char) : List (RE × ℕ) → Option (List String)
  | [] => none
  | p :: rest =>
    match reMatchGroups p.1 p.2 l with
    | some gs => some gs
    | none => firstMatch l rest

/-- `RegexPatterns.match_transaction`: strip the line, refuse empty or
short (< 10 characters) lines, then try the bank's patterns followed by
the generic ones, returning the first match's groups. -/
def match_transaction (line : String) (bank_type : String) : Option (List String) :=
  let l := pyStripL line.data
  if l.isEmpty || decide (l.length < 10) then none
  else firstMatch l (patternsFor bank_type ++ patternsFor "generic")

/-- `RegexPatterns.find_all_transactions`: match every line of the text. -/
def find_all_transactions (text : String) (bank_type : String) : List (List String) :=
  ((text.data.splitOn '\n').map String.mk).filterMap fun line =>
    match_transaction line bank_type

/-! ### `parser/date_parser.py` — `DateParser`

Dates are represented by their chronological key `y·10000 + m·100 + d`.
`strptime` is modelled per format with CPython's field regexes
(`%d`: 1–2 digits valued 1–31, `%m`: 1–2 digits valued 1–12,
`%Y`: exactly 4 digits, `%y`: exactly 2 digits with the 69 pivot) and
full calendar validation; `strptime` consumes the entire string. -/

def isLeapYear (y : ℕ) : Bool := (y % 4 = 0 && y % 100 ≠ 0) || y % 400 = 0

def daysInMonth (y m : ℕ) : ℕ :=
  match m with
  | 1 => 31 | 2 => if isLeapYear y then 29 else 28 | 3 => 31 | 4 => 30
  | 5 => 31 | 6 => 30 | 7 => 31 | 8 => 31 | 9 => 30 | 10 => 31
  | 11 => 30 | 12 => 31 | _ => 0

/-- `datetime(y, m, d)` constructibility. -/
def validDate (y m d : ℕ) : Bool :=
  1 ≤ y && y ≤ 9999 && 1 ≤ m && m ≤ 12 && 1 ≤ d && d ≤ daysInMonth y m

/-- Chronological key of a calendar date. -/
def encodeDate (y m d : ℕ) : ℕ := y * 10000 + m * 100 + d

/-- A 1–2 digit field bounded by `maxv` (CPython `%d` / `%m`). -/
def parseField2 (p : List Char) (maxv : ℕ) : Option ℕ :=
  if p ≠ [] ∧ p.length ≤ 2 ∧ p.all Char.isDigit then
    let v := natVal p
    if 1 ≤ v ∧ v ≤ maxv then some v else none
  else none

/-- CPython `%Y`: exactly four digits. -/
def parseY4 (p : List Char) : Option ℕ :=
  if p.length = 4 ∧ p.all Char.isDigit then some (natVal p) else none

/-- CPython `%y`: exactly two digits, pivot at 69. -/
def parseY2 (p : List Char) : Option ℕ :=
  if p.length = 2 ∧ p.all Char.isDigit then
    let v := natVal p
    some (if v < 69 then 2000 + v else 1900 + v)
  else none

/-- `strptime` for the day-first formats `%d sep %m sep %Y` / `%y`. -/
def strptimeDMY (sep : Char) (y4 : Bool) (l : List Char) : Option ℕ :=
  match l.splitOn sep with
  | [d, m, y] =>
    match parseField2 d 31, parseField2 m 12, (if y4 then parseY4 y else parseY2 y) with
    | some dv, some mv, some yv =>
      if validDate yv mv dv then some (encodeDate yv mv dv) else none
    | _, _, _ => none
  | _ => none

/-- `strptime` for the year-first formats `%Y sep %m sep %d`. -/
def strptimeYMD (sep : Char) (l : List Char) : Option ℕ :=
  match l.splitOn sep with
  | [y, m, d] =>
    match parseY4 y, parseField2 m 12, parseField2 d 31 with
    | some yv, some mv, some dv =>
      if validDate yv mv dv then some (encodeDate yv mv dv) else none
    | _, _, _ => none
  | _ => none

/-- The seven `(pattern, format)` pairs of `self.date_patterns`, in
order; the regex is the `re.match` prefix test, the parse function the
`strptime` applied to the whole string. -/
def dateFormatTable : List (RE × (List Char → Option ℕ)) :=
  [(reDate4 (rchar '/'), strptimeDMY '/' true),
   (reDate4 (rchar '-'), strptimeDMY '-' true),
   (reDate4 (rchar '.'), strptimeDMY '.' true),
   (reCat [reExact 4 rdigit, rchar '/', reRep 1 2 rdigit, rchar '/', reRep 1 2 rdigit],
    strptimeYMD '/'),
   (reCat [reExact 4 rdigit, rchar '-', reRep 1 2 rdigit, rchar '-', reRep 1 2 rdigit],
    strptimeYMD '-'),
   (reCat [reRep 1 2 rdigit, rchar '/', reRep 1 2 rdigit, rchar '/', reExact 2 rdigit],
    strptimeDMY '/' false),
   (reCat [reRep 1 2 rdigit, rchar '-', reRep 1 2 rdigit, rchar '-', reExact 2 rdigit],
    strptimeDMY '-' false)]

/-- Method 1 of `parse_date`: first prefix-matching pattern whose
`strptime` succeeds; a `strptime` failure falls through to the next
pattern. -/
def tryDateFormats : List (RE × (List Char → Option ℕ)) → List Char → Option ℕ
  | [], _ => none
  | (r, f) :: rest, l =>
    if reMatchesAt0 r l then
      match f l with
      | some d => some d
      | none => tryDateFormats rest l
    else tryDateFormats rest l

/-- Model of `dateutil.parser.parse(s, dayfirst=True)` restricted to the
purely numeric separated forms; every other input fails (`none`).  The
program only ever reaches this method with strings its own formats
rejected, and no theorem below depends on a `some` result from it. -/
def dateutilParse (l : List Char) : Option ℕ :=
  let trySep := fun (sep : Char) =>
    match l.splitOn sep with
    | [d, m, y] =>
      match parseField2 d 31, parseField2 m 12,
            (if y.length = 4 then parseY4 y else parseY2 y) with
      | some dv, some mv, some yv =>
        if validDate yv mv dv then some (encodeDate yv mv dv) else none
      | _, _, _ => none
    | _ => none
  match trySep '/' with
  | some d => some d
  | none =>
    match trySep '-' with
    | some d => some d
    | none => trySep '.'

/-- `DateParser._manual_date_parse`: keep only digits and separators,
then for each separator try `int` conversion, the 2-digit-year pivot at
50, the `1 ≤ day ≤ 31`, `1 ≤ month ≤ 12` check and `datetime`
construction; any failure moves on to the next separator. -/
def manualTrySeps : List Char → List Char → Option ℕ
  | [], _ => none
  | sep :: rest, clean =>
    match clean.splitOn sep with
    | [p1, p2, p3] =>
      match pyInt p1, pyInt p2, pyInt p3 with
      | some d, some m, some y0 =>
        let y := if y0 < 100 then (if y0 < 50 then y0 + 2000 else y0 + 1900) else y0
        if 1 ≤ d ∧ d ≤ 31 ∧ 1 ≤ m ∧ m ≤ 12 then
          if 1 ≤ y ∧ y ≤ 9999 ∧ d ≤ (daysInMonth y.toNat m.toNat : ℤ) then
            some (encodeDate y.toNat m.toNat d.toNat)
          else manualTrySeps rest clean
        else manualTrySeps rest clean
      | _, _, _ => manualTrySeps rest clean
    | _ => manualTrySeps rest clean

def manual_date_parse (l : List Char) : Option ℕ :=
  manualTrySeps ['/', '-', '.']
    (l.filter (fun c => c.isDigit || c = '/' || c = '-' || c = '.'))

/-- `DateParser.parse_date`: strip, then the three methods in order. -/
def parse_date (s : String) : Option ℕ :=
  if s.data = [] then none
  else
    let l := pyStripL s.data
    match tryDateFormats dateFormatTable l with
    | some d => some d
    | none =>
      match dateutilParse l with
      | some d => some d
      | none => manual_date_parse l

/-! ### `parser/bank_format_detector.py` — `BankFormatDetector` -/

structure BankProfile where
  name : String
  keywords : List String
  date_format : RE
  amount_format : RE

/-- The amount format `[\d,]+\.[\d]{2}` shared by all profiles. -/
def reAmtFmt : RE := reCat [rePlus rdigitComma, rchar '.', reExact 2 rdigit]

/-- `\d{2} sep \d{2} sep \d{4}`. -/
def reDateFmt (sep : Char) : RE :=
  reCat [reExact 2 rdigit, rchar sep, reExact 2 rdigit, rchar sep, reExact 4 rdigit]

/-- `self.bank_indicators`, in declaration order. -/
def bank_indicators : List BankProfile :=
  [⟨"hdfc", ["HDFC", "HDFC BANK", "HDFC Bank"], reDateFmt '/', reAmtFmt⟩,
   ⟨"sbi", ["SBI", "STATE BANK", "State Bank of India"], reDateFmt '-', reAmtFmt⟩,
   ⟨"icici", ["ICICI", "ICICI BANK", "ICICI Bank"], reDateFmt '/', reAmtFmt⟩,
   ⟨"axis", ["AXIS", "AXIS BANK", "Axis Bank"], reDateFmt '/', reAmtFmt⟩]

/-- `BankFormatDetector.detect_bank_format`: case-insensitive keyword
scan in declaration order; the first profile with a keyword occurrence
wins, otherwise `"generic"`.  (This is the whole function: the source
has no further fallback stage.) -/
def detect_bank_format (text : String) : String :=
  let up := pyUpper text
  match bank_indicators.find? (fun p => p.keywords.any fun kw => pyContains up (pyUpper kw)) with
  | some p => p.name
  | none => "generic"


/-! ### `parser/transaction_parser.py` — `TransactionParser` -/

/-- The `date` column value: a parsed date object, or the original
string verbatim when date normalization failed. -/
inductive DateVal where
  | parsed (d : ℕ)
  | raw (s : String)
deriving DecidableEq

structure Txn where
  date : DateVal
  date_original : String
  description : String
  transaction_code : String
  amount : Option ℚ
  amount_original : String
  type : String
  narration : String
  category : String
  bank_type : String
  original_match : String
deriving DecidableEq

structure Stats where
  total_lines_processed : ℕ
  transactions_found : ℕ
  bank_type_detected : Option String
  parsing_errors : ℕ
deriving DecidableEq

/-- Collapse each whitespace run to a single space
(`re.sub(r'\s+', ' ', ·)`), with fuel for structurality. -/
def collapseWsAux : ℕ → List Char → List Char
  | 0, l => l
  | _ + 1, [] => []
  | fuel + 1, c :: rest =>
    if pySpace c then ' ' :: collapseWsAux fuel (rest.dropWhile pySpace)
    else c :: collapseWsAux fuel rest

def collapseWs (l : List Char) : List Char := collapseWsAux l.length l

/-- `re.sub(r'^\s*[-*]\s*', '', ·)`: drop one leading dash or star and
the whitespace around it, when present. -/
def stripLeadDashStar (l : List Char) : List Char :=
  match l.dropWhile pySpace with
  | c :: rest => if c = '-' || c = '*' then rest.dropWhile pySpace else l
  | [] => l

/-- `re.sub(r'\s*[-*]\s*$', '', ·)`: the same at the end. -/
def stripTrailDashStar (l : List Char) : List Char :=
  match l.reverse.dropWhile pySpace with
  | c :: rest => if c = '-' || c = '*' then (rest.dropWhile pySpace).reverse else l
  | [] => l

/-- `TransactionParser._clean_description`. -/
def clean_description (description transaction_code : String) : String :=
  if description.data = [] then ""
  else
    let d := collapseWs (pyStripL description.data)
    let d :=
      if transaction_code.data ≠ [] ∧ occursIn transaction_code.data d then
        pyStripL (replaceSubL transaction_code.data [] d)
      else d
    String.mk (stripTrailDashStar (stripLeadDashStar d))

def income_keywords : List String := ["salary", "interest", "refund", "donation", "grant"]

def transfer_keywords : List String := ["neft", "imps", "rtgs", "upi", "transfer"]

def cash_keywords : List String := ["atm", "cash", "withdrawal", "wdl"]

def expense_keywords : List (String × List String) :=
  [("food", ["restaurant", "cafe", "food", "snacks", "meal", "lunch", "dinner"]),
   ("transport", ["fuel", "petrol", "bus", "train", "taxi", "uber", "ola"]),
   ("shopping", ["market", "store", "shop", "purchase", "buy"]),
   ("utility", ["electricity", "water", "internet", "mobile", "bill"])]

/-- `TransactionParser._categorize_transaction` (the parser's own simple
keyword categorizer, substring based). -/
def parser_categorize_transaction (description transaction_type : String) : String :=
  let dl := pyLower description
  if income_keywords.any (fun k => pyContains dl k) then "income"
  else if transfer_keywords.any (fun k => pyContains dl k) then "transfer"
  else if cash_keywords.any (fun k => pyContains dl k) then "cash_withdrawal"
  else
    match expense_keywords.find? (fun e => e.2.any fun k => pyContains dl k) with
    | some e => e.1
    | none => if transaction_type = "CR" then "income" else "expense"

/-- Python `str` of the groups tuple (recorded as `original_match`). -/
def pyTupleStr (m : List String) : String :=
  "(" ++ String.intercalate ", " (m.map fun s => "'" ++ s ++ "'") ++ ")"

/-- Build the transaction record from the destructured fields, exactly
as the body of `_parse_transaction_match` does. -/
def buildTxn (date_str transaction_code description amount_str type_str narration
    bank_type : String) (m : List String) : Txn :=
  let date_obj := parse_date date_str
  let amount := parse_amount amount_str
  let descriptionC := clean_description description transaction_code
  let typeU := pyUpper type_str
  { date := match date_obj with | some d => .parsed d | none => .raw date_str
    date_original := date_str
    description := descriptionC
    transaction_code := transaction_code
    amount := amount
    amount_original := amount_str
    type := typeU
    narration := pyStrip narration
    category := parser_categorize_transaction descriptionC typeU
    bank_type := bank_type
    original_match := pyTupleStr m }

/-- `TransactionParser._parse_transaction_match`: destructure by group
count (4, 5 or 6), otherwise `none`.  The body raises no exception in
the model (none of its operations can fail), mirroring that the
source's `except` branch is unreachable for string-tuple input. -/
def parse_transaction_match (m : List String) (bank_type : String) : Option Txn :=
  match m with
  | [date_str, description, amount_str, type_str] =>
    some (buildTxn date_str "" description amount_str type_str "" bank_type m)
  | [date_str, description, amount_str, type_str, narration] =>
    some (buildTxn date_str "" description amount_str type_str narration bank_type m)
  | [date_str, code, description, amount_str, type_str, narration] =>
    some (buildTxn date_str code description amount_str type_str narration bank_type m)
  | _ => none

/-- Model of `pd.to_datetime(s, errors='coerce', dayfirst=True)` on one
raw string: the numeric separated forms parse, everything else is `NaT`
(`none`).  Already-parsed date objects pass through unchanged. -/
def pdToDatetimeKey (d : DateVal) : Option ℕ :=
  match d with
  | .parsed n => some n
  | .raw s => dateutilParse (pyStripL s.data)

/-- Sort key comparison used by `sort_values('date_temp')`: dates
ascending, `NaT` (failed conversions) last (`na_position` default). -/
def dateKeyLe : Option ℕ → Option ℕ → Bool
  | none, none => true
  | none, some _ => false
  | some _, none => true
  | some a, some b => a ≤ b

/-- Stable insertion sort: an element is placed before the first
element it compares `le` to, so earlier input elements precede equal
later ones (the stability contract of Python's `list.sort`). -/
def sInsert (le : α → α → Bool) (x : α) : List α → List α
  | [] => [x]
  | y :: ys => if le x y then x :: y :: ys else y :: sInsert le x ys

def insertionSort (le : α → α → Bool) : List α → List α
  | [] => []
  | x :: xs => sInsert le x (insertionSort le xs)

/-- `TransactionParser._sort_transactions`.  (`sort_values` uses an
unstable quicksort; the stable sort here agrees with it up to the order
of equal keys, on which no theorem below depends.) -/
def sort_transactions (l : List Txn) : List Txn :=
  insertionSort (fun a b => dateKeyLe (pdToDatetimeKey a.date) (pdToDatetimeKey b.date)) l

/-- `TransactionParser.parse_transactions`: stats, optional bank
detection, matching, conversion, sort.  `parsing_errors` counts
exceptions raised while converting a matched line (source lines 43–49
and 113–116); no operation of the conversion can raise on string
tuples, so the counter remains 0 — in particular a line that matches no
pattern never touches it. -/
def parse_transactions (text : String) (bank_type : String) : List Txn × Stats :=
  let total := (text.data.splitOn '\n').length
  let detected := if bank_type = "auto" then some (detect_bank_format text) else none
  let bank := match detected with | some b => b | none => bank_type
  let found := find_all_transactions text bank
  let txns := found.filterMap fun m => parse_transaction_match m bank
  let txns := if txns.isEmpty then txns else sort_transactions txns
  (txns,
   { total_lines_processed := total
     transactions_found := found.length
     bank_type_detected := detected
     parsing_errors := 0 })

/-! ### `categorizer/rule_engine.py` — `RuleEngine._exact_keyword_match` -/

structure Category where
  name : String
  keywords : List String
  account_name : String
  type : String
  priority : ℤ
  patterns : List String
deriving DecidableEq

/-- `_get_default_categories`, in declaration order. -/
def default_categories : List Category :=
  [⟨"donation_income", ["donation", "donated", "contribution", "charity", "grant", "gift"],
    "Donation Income", "income", 1, ["donation", "contribution", "charity"]⟩,
   ⟨"salary_income", ["salary", "payroll", "wages", "stipend", "compensation"],
    "Salary Income", "income", 1, []⟩,
   ⟨"food_expense", ["restaurant", "cafe", "food", "snacks", "samosa", "meal", "lunch", "dinner"],
    "Food Expense", "expense", 2, []⟩,
   ⟨"transport_expense", ["fuel", "petrol", "diesel", "bus", "train", "metro", "taxi", "uber", "ola"],
    "Transport Expense", "expense", 2, []⟩,
   ⟨"cash_withdrawal", ["atm", "cash", "withdrawal", "wdl", "cash withdraw"],
    "Cash Account", "transfer", 1, []⟩,
   ⟨"bank_transfer", ["neft", "imps", "rtgs", "upi", "transfer"],
    "Bank Transfer", "transfer", 1, []⟩,
   ⟨"miscellaneous", [], "Miscellaneous", "expense", 99, []⟩]

/-- ASCII `\w`. -/
def isWordChar (c : Char) : Bool := c.isAlpha || c.isDigit || c = '_'

/-- Is the character at position `j` of `s` a word character
(out-of-range counts as not)? -/
def wordCharAt (s : List Char) (j : ℕ) : Bool :=
  match (s.drop j).head? with
  | some c => isWordChar c
  | none => false

/-- A `\b` boundary at position `i` of `s`. -/
def boundaryAt (s : List Char) (i : ℕ) : Bool :=
  (if i = 0 then false else wordCharAt s (i - 1)) != wordCharAt s i

/-- `re.search(r'\b' + re.escape(kw) + r'\b', s)` (the keyword is
matched literally thanks to `re.escape`). -/
def wholeWordSearch (kw s : List Char) : Bool :=
  (List.range (s.length + 1)).any fun i =>
    kw.isPrefixOf (s.drop i) && boundaryAt s i && boundaryAt s (i + kw.length)

/-- One category matches if any of its keywords occurs as a whole word
(the source `break`s after the first hit — one match per category). -/
def categoryMatches (description : List Char) (c : Category) : Bool :=
  c.keywords.any fun kw => wholeWordSearch kw.data description

/-- The matched categories, in dictionary iteration ( = declaration)
order. -/
def matchedCategories (cats : List Category) (description : String) : List Category :=
  cats.filter (categoryMatches description.data)

/-- `RuleEngine._exact_keyword_match`: collect the matched categories,
stably sort them by priority (`list.sort(key=...)` is stable) and
return the first name, `none` when nothing matched. -/
def exact_keyword_match (cats : List Category) (description : String) : Option String :=
  match insertionSort (fun a b => a.priority ≤ b.priority) (matchedCategories cats description) with
  | [] => none
  | c :: _ => some c.name


/-! ### `journal/entry_generator.py` — `JournalEntryGenerator` -/

structure AccountPair where
  debit : String
  credit : String
deriving DecidableEq

structure AccountMapping where
  account_types : List (String × AccountPair)
  specific_accounts : List (String × AccountPair)
  default_accounts : List (String × String)

/-- `_get_default_account_mapping`. -/
def default_account_mapping : AccountMapping :=
  { account_types :=
      [("income", ⟨"Bank Account", "To {account_name}"⟩),
       ("expense", ⟨"{account_name}", "To Bank Account"⟩),
       ("transfer", ⟨"{account_name}", "To Bank Account"⟩),
       ("asset", ⟨"{account_name}", "To Bank Account"⟩),
       ("liability", ⟨"{account_name}", "To Bank Account"⟩)]
    specific_accounts :=
      [("cash_withdrawal", ⟨"Cash Account", "To Bank Account"⟩),
       ("bank_transfer", ⟨"Bank Transfer", "To Bank Account"⟩),
       ("donation_income", ⟨"Bank Account", "To Donation Income"⟩),
       ("salary_income", ⟨"Bank Account", "To Salary Income"⟩),
       ("food_expense", ⟨"Food Expense", "To Bank Account"⟩),
       ("transport_expense", ⟨"Transport Expense", "To Bank Account"⟩)]
    default_accounts :=
      [("bank", "Bank Account"), ("cash", "Cash Account"),
       ("income", "Miscellaneous Income"), ("expense", "Miscellaneous Expense")] }

structure AccountingRules where
  round_to_decimals : ℕ
  currency_symbol : String
  date_format : String
  entry_format : String
  narration_style : String
deriving DecidableEq

/-- `_get_default_accounting_rules`. -/
def default_accounting_rules : AccountingRules :=
  ⟨2, "₹", "%d/%m/%Y", "double_entry", "detailed"⟩

/-- Python `str.title()` (ASCII): a letter is uppercased unless the
previous character was a letter, in which case it is lowercased. -/
def pyTitleAux : Bool → List Char → List Char
  | _, [] => []
  | prev, c :: rest =>
    if c.isAlpha then (if prev then pyLowerC c else pyUpperC c) :: pyTitleAux true rest
    else c :: pyTitleAux false rest

def pyTitle (s : String) : String := String.mk (pyTitleAux false s.data)

/-- `'...'.format(account_name=v)` on the fixed templates: substitute
the placeholder. -/
def formatAccountName (tmpl value : String) : String :=
  pyReplace tmpl "{account_name}" value

/-- Association list lookup (Python `dict.get`). -/
def alistFind (l : List (String × α)) (k : String) : Option α :=
  (l.find? fun e => e.1 = k).map (·.2)

def income_indicators : List String := ["income", "salary", "donation", "interest", "refund"]

def transfer_indicators : List String := ["transfer", "withdrawal", "cash"]

/-- `JournalEntryGenerator._get_category_type`. -/
def get_category_type (category : String) : String :=
  let cl := pyLower category
  if income_indicators.any (fun k => pyContains cl k) then "income"
  else if transfer_indicators.any (fun k => pyContains cl k) then "transfer"
  else "expense"

/-- `JournalEntryGenerator._get_account_names`. -/
def get_account_names (mapping : AccountMapping) (category transaction_type : String) :
    String × String :=
  match alistFind mapping.specific_accounts category with
  | some p => (p.debit, p.credit)
  | none =>
    let tmpl := alistFind mapping.account_types (get_category_type category)
    if transaction_type = "CR" then
      ((tmpl.map AccountPair.debit).getD "Bank Account",
       formatAccountName ((tmpl.map AccountPair.credit).getD "To {account_name}")
         (pyTitle category))
    else
      (formatAccountName ((tmpl.map AccountPair.debit).getD "{account_name}")
         (pyTitle category),
       (tmpl.map AccountPair.credit).getD "To Bank Account")

/-- `JournalEntryGenerator._format_amount`. -/
def gen_format_amount (rules : AccountingRules) (amount : ℚ) : String :=
  rules.currency_symbol ++ String.mk (pyFormatSigned2 amount)

/-- `JournalEntryGenerator._generate_narration`. -/
def generate_narration (rules : AccountingRules) (description : String) (amount : ℚ)
    (transaction_type : String) : String :=
  let formatted_amount := rules.currency_symbol ++ String.mk (pyFormatSigned2 amount)
  if rules.narration_style = "minimal" then description
  else if rules.narration_style = "brief" then description ++ " - " ++ formatted_amount
  else
    (if transaction_type = "CR" then "Received" else "Paid") ++
      " for " ++ description ++ " - Amount: " ++ formatted_amount

/-- The fields of the transaction dictionary read by the generator. -/
structure JTransaction where
  date : String
  description : String
  amount : ℚ
  type : String
deriving DecidableEq

structure JournalEntry where
  date : String
  debit_account : String
  debit_amount : String
  credit_account : String
  credit_amount : String
  narration : String
  type : String
  transaction_type : String
  category : String
  debit_entry : String
  credit_entry : String
  full_entry : String
deriving DecidableEq

/-- `JournalEntryGenerator.generate_journal_entry`: both the CR and the
DR branch write the same `formatted_amount` into `debit_amount` and
`credit_amount`; the branches differ only in the `type` tag. -/
def generate_journal_entry (mapping : AccountMapping) (rules : AccountingRules)
    (transaction : JTransaction) (category : String) : JournalEntry :=
  let date := transaction.date
  let description := transaction.description
  let amount := transaction.amount
  let txn_type := pyUpper transaction.type
  let formatted_amount := gen_format_amount rules amount
  let accounts := get_account_names mapping category txn_type
  let debit_account := accounts.1
  let credit_account := accounts.2
  let narration := generate_narration rules description amount txn_type
  if txn_type = "CR" then
    { date := date
      debit_account := debit_account
      debit_amount := formatted_amount
      credit_account := credit_account
      credit_amount := formatted_amount
      narration := narration
      type := "credit"
      transaction_type := txn_type
      category := category
      debit_entry := debit_account ++ " Dr " ++ formatted_amount
      credit_entry := "To " ++ credit_account ++ " " ++ formatted_amount
      full_entry := debit_account ++ " Dr " ++ formatted_amount ++ "\n" ++
        "To " ++ credit_account ++ " " ++ formatted_amount }
  else
    { date := date
      debit_account := debit_account
      debit_amount := formatted_amount
      credit_account := credit_account
      credit_amount := formatted_amount
      narration := narration
      type := "debit"
      transaction_type := txn_type
      category := category
      debit_entry := debit_account ++ " Dr " ++ formatted_amount
      credit_entry := "To " ++ credit_account ++ " " ++ formatted_amount
      full_entry := debit_account ++ " Dr " ++ formatted_amount ++ "\n" ++
        "To " ++ credit_account ++ " " ++ formatted_amount }

/-- `JournalEntryGenerator._parse_amount`: strip the currency symbol and
commas, `float`, and `0.0` on failure. -/
def gen_parse_amount (s : String) : ℚ :=
  (pyFloat (replaceSubL ",".data [] (replaceSubL "₹".data [] s.data))).getD 0

/-! ### `journal/ledger_manager.py` — `LedgerManager` -/

structure Posting where
  date : String
  particulars : String
  debit : ℚ
  credit : ℚ
  narration : String
  type : String
deriving DecidableEq

/-- The ledger dictionary: account name to posting list, in first-seen
(insertion) order. -/
abbrev Ledger := List (String × List Posting)

/-- `LedgerManager._parse_amount`.  The stripped marker is the verbatim
byte sequence appearing in the source file (a mojibake rendering of the
rupee sign), so the real `'₹'` produced by the generator is not
stripped and such strings fail to `float` (yielding `0.0`). -/
def led_parse_amount (s : String) : ℚ :=
  (pyFloat (replaceSubL ",".data [] (replaceSubL "â‚¹".data [] s.data))).getD 0

/-- Append a posting to an account's list, creating the account at the
end on first reference (Python dict insertion semantics). -/
def appendPosting (ledger : Ledger) (account : String) (p : Posting) : Ledger :=
  match ledger with
  | [] => [(account, [p])]
  | (a, ps) :: rest =>
    if a = account then (a, ps ++ [p]) :: rest
    else (a, ps) :: appendPosting rest account p

/-- `LedgerManager._process_journal_entry`: parse the amount once from
`debit_amount`, then append one debit posting and one credit posting. -/
def process_journal_entry (ledger : Ledger) (entry : JournalEntry) : Ledger :=
  let amount := led_parse_amount entry.debit_amount
  let l1 := appendPosting ledger entry.debit_account
    { date := entry.date
      particulars := "To " ++ entry.credit_account
      debit := amount
      credit := 0
      narration := entry.narration
      type := "debit" }
  appendPosting l1 entry.credit_account
    { date := entry.date
      particulars := "By " ++ entry.debit_account
      debit := 0
      credit := amount
      narration := entry.narration
      type := "credit" }

/-- `LedgerManager.update_ledger`. -/
def update_ledger (ledger : Ledger) (entries : List JournalEntry) : Ledger :=
  entries.foldl process_journal_entry ledger

/-- Total number of postings across all accounts. -/
def postingCount (ledger : Ledger) : ℕ :=
  (ledger.map fun e => e.2.length).sum

/-- Sum of the debit column across all postings of all accounts. -/
def totalDebit (ledger : Ledger) : ℚ :=
  (ledger.map fun e => (e.2.map Posting.debit).sum).sum

/-- Sum of the credit column across all postings of all accounts. -/
def totalCredit (ledger : Ledger) : ℚ :=
  (ledger.map fun e => (e.2.map Posting.credit).sum).sum
/-! ### Definitions written from the claims' words (for comparison only)

The two definitions below are not translations of the source: they state
the behaviour that claims C3 and C5 attribute to the code, so that the
counterexamples can exhibit the divergence. -/

/-- One anchored attempt of `r` at position `pos` of `s`, returning the
end position of the (leftmost-preferred) match. -/
def reTryAt (r : RE) (s : List Char) (pos : ℕ) : Option ℕ :=
  match reRun s (reFuel s) r (s.drop pos) pos [] (fun _ p _ => some [(0, pos, p)]) with
  | some ((_, _, e) :: _) => some e
  | _ => none

/-- Count the non-overlapping matches of `r` in `s`, scanning left to
right (`len(re.findall(r, s))`). -/
def countMatchesAux (r : RE) (s : List Char) : ℕ → ℕ → ℕ
  | 0, _ => 0
  | fuel + 1, pos =>
    if s.length < pos then 0
    else
      match reTryAt r s pos with
      | some e => 1 + countMatchesAux r s fuel (if pos < e then e else pos + 1)
      | none => if pos = s.length then 0 else countMatchesAux r s fuel (pos + 1)

def countMatches (r : RE) (s : List Char) : ℕ :=
  countMatchesAux r s (s.length + 2) 0

/-- Modelled from the claim (C3), not from the source: keyword scan as
in the code, then the claimed fallback — count each profile's
`date_format` matches over the whole text and pick the profile with the
most matches (ties to the first enumerated) — and `"generic"` only when
that stage is inconclusive (no matches at all). -/
def claimedDetectBankFormat (text : String) : String :=
  let up := pyUpper text
  match bank_indicators.find? (fun p => p.keywords.any fun kw => pyContains up (pyUpper kw)) with
  | some p => p.name
  | none =>
    let best := bank_indicators.foldl
      (fun acc p =>
        let c := countMatches p.date_format text.data
        if acc.2 < c then (p.name, c) else acc)
      ("generic", 0)
    best.1

/-- Python `str(datetime(y, m, d))`: `"YYYY-MM-DD 00:00:00"`. -/
def pad4 (n : ℕ) : List Char :=
  List.replicate (4 - (decDigits n).length) '0' ++ decDigits n

def dateValStr (d : DateVal) : String :=
  match d with
  | .parsed n =>
    String.mk (pad4 (n / 10000) ++ '-' :: pad2 (n / 100 % 100) ++ '-' :: pad2 (n % 100)) ++
      " 00:00:00"
  | .raw s => s

/-- Code-point lexicographic string order (Python `str` comparison). -/
def strLe : List Char → List Char → Bool
  | [], _ => true
  | _ :: _, [] => false
  | x :: xs, y :: ys => if x = y then strLe xs ys else decide (x.toNat < y.toNat)

/-- Modelled from the claim (C5), not from the source: order the
collection by the string representation of the `date` column, so that
transactions with unparseable dates interleave with the rest according
to their raw strings. -/
def claimedSortTransactions (l : List Txn) : List Txn :=
  insertionSort (fun a b => strLe (dateValStr a.date).data (dateValStr b.date).data) l

/-- Concrete transactions for the sorting counterexample (amounts are
irrelevant to sorting and left empty). -/
def c5TxnA : Txn :=
  { date := .parsed 20240315, date_original := "15/03/2024", description := "A"
    transaction_code := "", amount := none, amount_original := "", type := "CR"
    narration := "", category := "income", bank_type := "generic", original_match := "" }

def c5TxnB : Txn :=
  { date := .raw "00/00/0000", date_original := "00/00/0000", description := "B"
    transaction_code := "", amount := none, amount_original := "", type := "DR"
    narration := "", category := "expense", bank_type := "generic", original_match := "" }

def c5TxnC : Txn :=
  { date := .parsed 20200101, date_original := "01/01/2020", description := "C"
    transaction_code := "", amount := none, amount_original := "", type := "DR"
    narration := "", category := "expense", bank_type := "generic", original_match := "" }

/-- The two default categories used in the C7 witness. -/
def donationCategory : Category :=
  ⟨"donation_income", ["donation", "donated", "contribution", "charity", "grant", "gift"],
   "Donation Income", "income", 1, ["donation", "contribution", "charity"]⟩

def cashWithdrawalCategory : Category :=
  ⟨"cash_withdrawal", ["atm", "cash", "withdrawal", "wdl", "cash withdraw"],
   "Cash Account", "transfer", 1, []⟩
/-! ### General lemmas: stable insertion sort -/

theorem sInsert_perm (le : α → α → Bool) (x : α) (l : List α) :
    List.Perm (sInsert le x l) (x :: l) := by
  induction l with
  | nil => simp [sInsert]
  | cons y ys ih =>
    simp only [sInsert]
    split
    · exact List.Perm.refl _
    · exact (ih.cons y).trans (List.Perm.swap x y ys)

theorem insertionSort_perm (le : α → α → Bool) (l : List α) :
    List.Perm (insertionSort le l) l := by
  induction l with
  | nil => simp [insertionSort]
  | cons x xs ih =>
    simpa [insertionSort] using (sInsert_perm le x (insertionSort le xs)).trans (ih.cons x)

theorem sInsert_pairwise (le : α → α → Bool)
    (htrans : ∀ a b c, le a b = true → le b c = true → le a c = true)
    (htot : ∀ a b, le a b = true ∨ le b a = true)
    (x : α) (l : List α) (h : List.Pairwise (fun a b => le a b = true) l) :
    List.Pairwise (fun a b => le a b = true) (sInsert le x l) := by
  induction l with
  | nil => simp [sInsert]
  | cons y ys ih =>
    simp only [sInsert]
    split
    · rename_i hxy
      refine List.Pairwise.cons ?_ h
      intro z hz
      rcases List.mem_cons.mp hz with rfl | hz'
      · exact hxy
      · exact htrans _ _ _ hxy (List.rel_of_pairwise_cons h hz')
    · rename_i hxy
      have hyx : le y x = true := by
        rcases htot x y with h' | h'
        · exact absurd h' hxy
        · exact h'
      refine List.Pairwise.cons ?_ (ih h.tail)
      intro z hz
      rcases List.mem_cons.mp ((sInsert_perm le x ys).mem_iff.mp hz) with rfl | hz'
      · exact hyx
      · exact List.rel_of_pairwise_cons h hz'

theorem insertionSort_pairwise (le : α → α → Bool)
    (htrans : ∀ a b c, le a b = true → le b c = true → le a c = true)
    (htot : ∀ a b, le a b = true ∨ le b a = true) (l : List α) :
    List.Pairwise (fun a b => le a b = true) (insertionSort le l) := by
  induction l with
  | nil => simp [insertionSort]
  | cons x xs ih => exact sInsert_pairwise le htrans htot x _ ih

theorem insertionSort_eq_nil_iff (le : α → α → Bool) (l : List α) :
    insertionSort le l = [] ↔ l = [] := by
  constructor
  · intro h
    have hl := (insertionSort_perm le l).length_eq
    rw [h] at hl
    exact List.length_eq_zero.mp hl.symm
  · rintro rfl
    simp [insertionSort]

/-- The head of the stable insertion sort by an integer key is the
first element of the input attaining the minimal key. -/
theorem insertionSort_head_spec (f : α → ℤ) (l : List α) (c : α) (rest : List α)
    (h : insertionSort (fun a b => f a ≤ f b) l = c :: rest) :
    c ∈ l ∧ (∀ x ∈ l, f c ≤ f x) ∧
      ∃ pre post, l = pre ++ c :: post ∧ ∀ x ∈ pre, f c < f x := by
  induction l generalizing c rest with
  | nil => simp [insertionSort] at h
  | cons x xs ih =>
    simp only [insertionSort] at h
    rcases hxs : insertionSort (fun a b => decide (f a ≤ f b)) xs with _ | ⟨d, ds⟩
    · have hxsnil : xs = [] := (insertionSort_eq_nil_iff _ xs).mp hxs
      subst hxsnil
      simp only [insertionSort, sInsert] at h
      obtain ⟨rfl, rfl⟩ := List.cons_eq_cons.mp h
      refine ⟨List.mem_cons_self _ _, ?_, [], [], rfl, by simp⟩
      intro y hy
      rcases List.mem_singleton.mp hy with rfl
      exact le_refl _
    · rw [hxs] at h
      simp only [sInsert] at h
      by_cases hxd : f x ≤ f d
      · rw [if_pos (by simpa using hxd)] at h
        obtain ⟨rfl, rfl⟩ := List.cons_eq_cons.mp h
        refine ⟨List.mem_cons_self _ _, ?_, [], xs, rfl, by simp⟩
        intro y hy
        rcases List.mem_cons.mp hy with rfl | hy'
        · exact le_refl _
        · obtain ⟨-, hdmin, -⟩ := ih d ds hxs
          exact le_trans hxd (hdmin y hy')
      · rw [if_neg (by simpa using hxd)] at h
        obtain ⟨rfl, -⟩ := List.cons_eq_cons.mp h
        obtain ⟨hdmem, hdmin, pre, post, hsplit, hpre⟩ := ih d ds hxs
        refine ⟨List.mem_cons_of_mem _ hdmem, ?_, x :: pre, post, by simp [hsplit], ?_⟩
        · intro y hy
          rcases List.mem_cons.mp hy with rfl | hy'
          · exact le_of_lt (lt_of_not_ge hxd)
          · exact hdmin y hy'
        · intro y hy
          rcases List.mem_cons.mp hy with rfl | hy'
          · exact lt_of_not_ge hxd
          · exact hpre y hy'
/-! ### Ledger lemmas -/

theorem postingCount_appendPosting (L : Ledger) (a : String) (p : Posting) :
    postingCount (appendPosting L a p) = postingCount L + 1 := by
  induction L with
  | nil => simp [appendPosting, postingCount]
  | cons e rest ih =>
    obtain ⟨b, ps⟩ := e
    simp only [appendPosting]
    split
    · simp [postingCount]
      omega
    · simp only [postingCount, List.map_cons, List.sum_cons] at ih ⊢
      omega

theorem totalDebit_appendPosting (L : Ledger) (a : String) (p : Posting) :
    totalDebit (appendPosting L a p) = totalDebit L + p.debit := by
  induction L with
  | nil => simp [appendPosting, totalDebit]
  | cons e rest ih =>
    obtain ⟨b, ps⟩ := e
    simp only [appendPosting]
    split
    · simp [totalDebit]
      ring
    · simp only [totalDebit, List.map_cons, List.sum_cons] at ih ⊢
      rw [ih]
      ring

theorem totalCredit_appendPosting (L : Ledger) (a : String) (p : Posting) :
    totalCredit (appendPosting L a p) = totalCredit L + p.credit := by
  induction L with
  | nil => simp [appendPosting, totalCredit]
  | cons e rest ih =>
    obtain ⟨b, ps⟩ := e
    simp only [appendPosting]
    split
    · simp [totalCredit]
      ring
    · simp only [totalCredit, List.map_cons, List.sum_cons] at ih ⊢
      rw [ih]
      ring

/-! ### The claims -/

/-- Claim C1 (confirmed): for every transaction and category (and any
account mapping and accounting rules), the journal entry produced by
`generate_journal_entry` carries the same formatted amount string on the
debit and credit side — for the CR branch and the DR branch alike — so
the parsed debit and credit amounts differ by less than the 0.01
epsilon (they are equal). -/
theorem c1_journal_entry_balanced (mapping : AccountMapping) (rules : AccountingRules)
    (transaction : JTransaction) (category : String) :
    (generate_journal_entry mapping rules transaction category).debit_amount =
      (generate_journal_entry mapping rules transaction category).credit_amount ∧
    |gen_parse_amount (generate_journal_entry mapping rules transaction category).debit_amount -
        gen_parse_amount
          (generate_journal_entry mapping rules transaction category).credit_amount| <
      1 / 100 := by
  have h : (generate_journal_entry mapping rules transaction category).debit_amount =
      (generate_journal_entry mapping rules transaction category).credit_amount := by
    by_cases hcr : pyUpper transaction.type = "CR" <;>
      simp [generate_journal_entry, hcr]
  refine ⟨h, ?_⟩
  rw [h, sub_self, abs_zero]
  norm_num

/-- Claim C9 (confirmed): posting one journal entry into the ledger
appends exactly two postings — a debit posting on the debit account and
a credit posting on the credit account — both carrying the amount
parsed from `debit_amount`, so each posting step adds equal totals to
the ledger's debit and credit sides; and the entry's `credit_amount`
field is never read (changing it does not change the result). -/
theorem c9_ledger_posting_balanced (ledger : Ledger) (entry : JournalEntry) :
    postingCount (process_journal_entry ledger entry) = postingCount ledger + 2 ∧
    totalDebit (process_journal_entry ledger entry) =
      totalDebit ledger + led_parse_amount entry.debit_amount ∧
    totalCredit (process_journal_entry ledger entry) =
      totalCredit ledger + led_parse_amount entry.debit_amount ∧
    ∀ x : String,
      process_journal_entry ledger { entry with credit_amount := x } =
        process_journal_entry ledger entry := by
  refine ⟨?_, ?_, ?_, fun x => rfl⟩
  · simp only [process_journal_entry, postingCount_appendPosting]
  · simp only [process_journal_entry, totalDebit_appendPosting]
    ring
  · simp only [process_journal_entry, totalCredit_appendPosting]
    ring

/-- Claim C10 (confirmed): a line whose stripped form is empty or
shorter than 10 characters is rejected by `match_transaction` for every
bank type, before any pattern is tried. -/
theorem c10_short_line_never_matches (line bank_type : String)
    (h : (pyStrip line).data = [] ∨ (pyStrip line).data.length < 10) :
    match_transaction line bank_type = none := by
  have h10 : (pyStripL line.data).length < 10 := by
    rcases h with h | h
    · have h0 : pyStripL line.data = [] := by simpa [pyStrip] using h
      simp [h0]
    · simpa [pyStrip] using h
  simp only [match_transaction]
  rw [if_pos]
  simp [h10]

theorem c10_witness :
    ((pyStrip "  abc  ").data = [] ∨ (pyStrip "  abc  ").data.length < 10) ∧
    match_transaction "  abc  " "hdfc" = none :=
  ⟨by decide, c10_short_line_never_matches "  abc  " "hdfc" (by decide)⟩

/-- Claim C3, counterexample: a text with no bank keyword but three
occurrences of the sbi date format.  The detector the claim describes
would return `"sbi"` from the count-based fallback; the code returns
`"generic"` directly — it has no fallback stage. -/
theorem c3_counterexample :
    (∀ p ∈ bank_indicators, ∀ kw ∈ p.keywords,
        pyContains (pyUpper "01-02-2024 03-04-2024 05-06-2024") (pyUpper kw) = false) ∧
    claimedDetectBankFormat "01-02-2024 03-04-2024 05-06-2024" = "sbi" ∧
    detect_bank_format "01-02-2024 03-04-2024 05-06-2024" = "generic" ∧
    ("generic" : String) ≠ "sbi" :=
  ⟨by decide, by decide, by decide, by decide⟩

/-- Claim C3 as amended (proved): when no profile keyword occurs in the
text, `detect_bank_format` returns `"generic"` immediately; there is no
date-pattern counting stage. -/
theorem c3_amended_generic_without_keyword (text : String)
    (h : ∀ p ∈ bank_indicators, ∀ kw ∈ p.keywords,
        pyContains (pyUpper text) (pyUpper kw) = false) :
    detect_bank_format text = "generic" := by
  have hf : bank_indicators.find?
      (fun p => p.keywords.any fun kw => pyContains (pyUpper text) (pyUpper kw)) = none := by
    rw [List.find?_eq_none]
    intro p hp hc
    rw [List.any_eq_true] at hc
    obtain ⟨kw, hkw, hcon⟩ := hc
    rw [h p hp kw hkw] at hcon
    cases hcon
  simp only [detect_bank_format]
  rw [hf]

theorem c3_amended_witness :
    (∀ p ∈ bank_indicators, ∀ kw ∈ p.keywords,
        pyContains (pyUpper "just some plain text") (pyUpper kw) = false) ∧
    detect_bank_format "just some plain text" = "generic" :=
  ⟨by decide, c3_amended_generic_without_keyword "just some plain text" (by decide)⟩

/-- Claim C6, counterexample: a single malformed line (no date and no
amount token) matches no pattern, produces zero transactions — and
leaves `parsing_errors` at 0, not 1: the counter only counts exceptions
raised while converting a line that *did* match. -/
theorem c6_counterexample :
    match_transaction "No transaction content on this line" "generic" = none ∧
    (parse_transactions "No transaction content on this line" "generic").1 = [] ∧
    (parse_transactions "No transaction content on this line" "generic").2.parsing_errors = 0 ∧
    (parse_transactions "No transaction content on this line" "generic").2.parsing_errors ≠ 1 :=
  ⟨by decide, by decide, by decide, by decide⟩

/-- Claim C6 as amended (proved): for a text none of whose lines
matches any pattern, `parse_transactions` produces zero transactions
and leaves the `parsing_errors` counter unchanged at 0. -/
theorem c6_amended_unmatched_lines_no_error (text bank_type : String)
    (hb : bank_type ≠ "auto")
    (h : ∀ line ∈ (text.data.splitOn '\n').map String.mk,
        match_transaction line bank_type = none) :
    (parse_transactions text bank_type).1 = [] ∧
    (parse_transactions text bank_type).2.parsing_errors = 0 := by
  have hfind : find_all_transactions text bank_type = [] := by
    unfold find_all_transactions
    rw [List.filterMap_eq_nil_iff]
    exact h
  constructor
  · simp [parse_transactions, hb, hfind]
  · simp [parse_transactions, hb, hfind]

theorem c6_amended_witness :
    (∀ line ∈ ("No transactions in here!".data.splitOn '\n').map String.mk,
        match_transaction line "generic" = none) ∧
    (parse_transactions "No transactions in here!" "generic").1 = [] ∧
    (parse_transactions "No transactions in here!" "generic").2.parsing_errors = 0 :=
  ⟨by decide,
   (c6_amended_unmatched_lines_no_error "No transactions in here!" "generic"
      (by decide) (by decide)).1,
   (c6_amended_unmatched_lines_no_error "No transactions in here!" "generic"
      (by decide) (by decide)).2⟩

/-- Claim C2, counterexample: the line `"1/1/2024 P ,, DR"` matches
generic pattern 1 with amount string `",,"`, whose normalization fails —
yet the transaction is *not* discarded: it appears in the output of
`parse_transactions` with a missing (`none`) amount. -/
theorem c2_counterexample :
    (parse_transactions "1/1/2024 P ,, DR" "generic").1.length = 1 ∧
    (parse_transactions "1/1/2024 P ,, DR" "generic").1.map Txn.amount = [none] :=
  ⟨by decide, by decide⟩

/-- Claim C2 as amended (proved): a matched tuple whose amount string
fails to normalize still yields a transaction record — with `amount`
empty — rather than being discarded. -/
theorem c2_amended_missing_amount_kept (m : List String) (bank_type : String)
    (hlen : m.length = 4 ∨ m.length = 5 ∨ m.length = 6)
    (hamt : parse_amount (m.getD (if m.length = 6 then 3 else 2) "") = none) :
    ∃ t, parse_transaction_match m bank_type = some t ∧ t.amount = none := by
  rcases hlen with h4 | h5 | h6
  · obtain ⟨a, b, c, d, rfl⟩ : ∃ a b c d, m = [a, b, c, d] := by
      match m, h4 with
      | [a, b, c, d], _ => exact ⟨a, b, c, d, rfl⟩
    simp only [List.length_cons, List.length_nil] at hamt
    refine ⟨_, rfl, ?_⟩
    simpa [buildTxn, List.getD] using hamt
  · obtain ⟨a, b, c, d, e, rfl⟩ : ∃ a b c d e, m = [a, b, c, d, e] := by
      match m, h5 with
      | [a, b, c, d, e], _ => exact ⟨a, b, c, d, e, rfl⟩
    simp only [List.length_cons, List.length_nil] at hamt
    refine ⟨_, rfl, ?_⟩
    simpa [buildTxn, List.getD] using hamt
  · obtain ⟨a, b, c, d, e, f, rfl⟩ : ∃ a b c d e f, m = [a, b, c, d, e, f] := by
      match m, h6 with
      | [a, b, c, d, e, f], _ => exact ⟨a, b, c, d, e, f, rfl⟩
    simp only [List.length_cons, List.length_nil] at hamt
    refine ⟨_, rfl, ?_⟩
    simpa [buildTxn, List.getD] using hamt

theorem c2_amended_witness :
    parse_amount ((["1/1/2024", "P", ",,", "DR", ""] : List String).getD
      (if (["1/1/2024", "P", ",,", "DR", ""] : List String).length = 6 then 3 else 2) "") =
        none ∧
    ∃ t, parse_transaction_match ["1/1/2024", "P", ",,", "DR", ""] "generic" = some t ∧
      t.amount = none :=
  ⟨by decide,
   c2_amended_missing_amount_kept ["1/1/2024", "P", ",,", "DR", ""] "generic"
     (by decide) (by decide)⟩
/-! ### Claim C5 — sorting -/

theorem dateKeyLe_trans (a b c : Option ℕ) (h1 : dateKeyLe a b = true)
    (h2 : dateKeyLe b c = true) : dateKeyLe a c = true := by
  cases a <;> cases b <;> cases c <;> simp_all [dateKeyLe] <;> omega

theorem dateKeyLe_total (a b : Option ℕ) : dateKeyLe a b = true ∨ dateKeyLe b a = true := by
  cases a <;> cases b <;> simp_all [dateKeyLe] <;> omega

theorem dropWhile_head_false (p : α → Bool) (l : List α) (d : α) (ds : List α)
    (h : l.dropWhile p = d :: ds) : p d = false := by
  induction l with
  | nil => simp at h
  | cons x xs ih =>
    rw [List.dropWhile_cons] at h
    split at h
    · exact ih h
    · obtain ⟨rfl, -⟩ := List.cons_eq_cons.mp h
      rename_i hx
      exact Bool.eq_false_iff.mpr hx

/-- Claim C5, counterexample: on a collection with one unparseable date
string (`"00/00/0000"`) between two parsed dates, the code places the
failed-date transaction *last* (the `NaT` sort key sorts after every
date), while the ordering the claim describes — by the string
representation of the date column — would place it *first* (its raw
string is lexicographically smallest).  The two orderings differ. -/
theorem c5_counterexample :
    sort_transactions [c5TxnA, c5TxnB, c5TxnC] = [c5TxnC, c5TxnA, c5TxnB] ∧
    claimedSortTransactions [c5TxnA, c5TxnB, c5TxnC] = [c5TxnB, c5TxnC, c5TxnA] ∧
    sort_transactions [c5TxnA, c5TxnB, c5TxnC] ≠
      claimedSortTransactions [c5TxnA, c5TxnB, c5TxnC] :=
  ⟨by decide, by decide, by decide⟩

/-- Claim C5 as amended (proved): after parsing, the collection is
sorted by the converted date ascending, and every transaction whose
date fails to convert (`NaT`) is pushed to the end — after all
date-sorted entries — rather than interleaved by raw string. -/
theorem c5_amended_failed_dates_sort_last (l : List Txn) :
    ∃ ps ns,
      sort_transactions l = ps ++ ns ∧
      List.Perm (sort_transactions l) l ∧
      (∀ a ∈ ps, (pdToDatetimeKey a.date).isSome = true) ∧
      (∀ a ∈ ns, pdToDatetimeKey a.date = none) ∧
      List.Pairwise
        (fun a b => dateKeyLe (pdToDatetimeKey a.date) (pdToDatetimeKey b.date) = true) ps := by
  have hsorted : List.Pairwise
      (fun a b => dateKeyLe (pdToDatetimeKey a.date) (pdToDatetimeKey b.date) = true)
      (sort_transactions l) :=
    insertionSort_pairwise
      (fun a b => dateKeyLe (pdToDatetimeKey a.date) (pdToDatetimeKey b.date))
      (fun _ _ _ hab hbc => by exact dateKeyLe_trans _ _ _ hab hbc)
      (fun _ _ => by exact dateKeyLe_total _ _) l
  refine ⟨(sort_transactions l).takeWhile (fun a => (pdToDatetimeKey a.date).isSome),
          (sort_transactions l).dropWhile (fun a => (pdToDatetimeKey a.date).isSome),
          (List.takeWhile_append_dropWhile _ _).symm,
          insertionSort_perm _ l, ?_, ?_, ?_⟩
  · intro a ha
    have h' := List.mem_takeWhile_imp ha
    simpa using h'
  · cases hd : (sort_transactions l).dropWhile (fun a => (pdToDatetimeKey a.date).isSome) with
    | nil => simp
    | cons d ds =>
      have hdnone : pdToDatetimeKey d.date = none := by
        have := dropWhile_head_false _ _ _ _ hd
        simpa [Option.isSome_iff_exists] using this
      have hpair : List.Pairwise
          (fun a b => dateKeyLe (pdToDatetimeKey a.date) (pdToDatetimeKey b.date) = true)
          (d :: ds) := by
        rw [← hd]
        exact List.Pairwise.sublist (List.dropWhile_sublist _) hsorted
      intro a ha
      rcases List.mem_cons.mp ha with rfl | ha'
      · exact hdnone
      · have hrel := List.rel_of_pairwise_cons hpair ha'
        rw [hdnone] at hrel
        cases hkey : pdToDatetimeKey a.date with
        | none => rfl
        | some v => rw [hkey] at hrel; simp [dateKeyLe] at hrel
  · exact List.Pairwise.sublist (List.takeWhile_sublist _) hsorted

/-! ### Claim C7 — priority-deterministic keyword categorization -/

/-- Claim C7 (confirmed): whenever at least two categories match
keywords in a description, the exact-keyword stage selects a matched
category of minimal priority number; among matched categories of that
priority it selects the first declared; and the selected *name* is
unchanged under any permutation of the category list whenever the
minimal-priority matches agree on a name (in particular when the
minimum is uniquely attained). -/
theorem c7_keyword_priority_deterministic (cats : List Category) (description : String)
    (cA cB : Category) (h1 : cA ∈ matchedCategories cats description)
    (h2 : cB ∈ matchedCategories cats description) (hne : cA ≠ cB) :
    ∃ c ∈ matchedCategories cats description,
      exact_keyword_match cats description = some c.name ∧
      (∀ x ∈ matchedCategories cats description, c.priority ≤ x.priority) ∧
      (∃ pre post, matchedCategories cats description = pre ++ c :: post ∧
        ∀ x ∈ pre, c.priority < x.priority) ∧
      ∀ cats' : List Category, List.Perm cats' cats →
        (∀ x ∈ matchedCategories cats description, x.priority = c.priority →
          x.name = c.name) →
        exact_keyword_match cats' description = some c.name := by
  cases hs : insertionSort (fun a b => Category.priority a ≤ Category.priority b)
      (matchedCategories cats description) with
  | nil =>
    rw [insertionSort_eq_nil_iff] at hs
    rw [hs] at h1
    cases h1
  | cons c rest =>
    obtain ⟨hmem, hmin, pre, post, hsplit, hpre⟩ :=
      insertionSort_head_spec Category.priority _ c rest hs
    refine ⟨c, hmem, ?_, hmin, ⟨pre, post, hsplit, hpre⟩, ?_⟩
    · unfold exact_keyword_match
      rw [hs]
    · intro cats' hperm huniq
      have hpf : List.Perm (matchedCategories cats' description)
          (matchedCategories cats description) := by
        unfold matchedCategories
        exact hperm.filter _
      cases hs' : insertionSort (fun a b => Category.priority a ≤ Category.priority b)
          (matchedCategories cats' description) with
      | nil =>
        rw [insertionSort_eq_nil_iff] at hs'
        have : c ∈ matchedCategories cats' description := hpf.mem_iff.mpr hmem
        rw [hs'] at this
        cases this
      | cons c' rest' =>
        obtain ⟨hmem', hmin', -⟩ := insertionSort_head_spec Category.priority _ c' rest' hs'
        have hc'm : c' ∈ matchedCategories cats description := hpf.mem_iff.mp hmem'
        have hcm' : c ∈ matchedCategories cats' description := hpf.mem_iff.mpr hmem
        have heq : c'.priority = c.priority :=
          le_antisymm (hmin' c hcm') (hmin c' hc'm)
        have hname := huniq c' hc'm heq
        unfold exact_keyword_match
        rw [hs']
        show some c'.name = some c.name
        rw [hname]

theorem c7_witness :
    ∃ c ∈ matchedCategories default_categories "atm donation",
      exact_keyword_match default_categories "atm donation" = some c.name ∧
      (∀ x ∈ matchedCategories default_categories "atm donation", c.priority ≤ x.priority) ∧
      (∃ pre post, matchedCategories default_categories "atm donation" = pre ++ c :: post ∧
        ∀ x ∈ pre, c.priority < x.priority) ∧
      ∀ cats' : List Category, List.Perm cats' default_categories →
        (∀ x ∈ matchedCategories default_categories "atm donation",
          x.priority = c.priority → x.name = c.name) →
        exact_keyword_match cats' "atm donation" = some c.name :=
  c7_keyword_priority_deterministic default_categories "atm donation"
    donationCategory cashWithdrawalCategory (by decide) (by decide) (by decide)
/-! ### Claim C8 — parse/format round trip.  Part A: every successful
`parse_amount` result is a nonnegative whole number of cents. -/

theorem isDigit_digitComma {c : Char} (h : c.isDigit = true) : digitComma c = true := by
  simp [digitComma, h]

theorem upToLastDigit_subset {run : List Char} {c : Char} (h : c ∈ upToLastDigit run) :
    c ∈ run := by
  unfold upToLastDigit at h
  rw [List.mem_reverse] at h
  have := (List.dropWhile_sublist (fun c : Char => !c.isDigit)).mem h
  rwa [List.mem_reverse] at this

theorem amtSearch1_chars :
    ∀ {l r : List Char}, amtSearch1 l = some r → ∀ c ∈ r, digitComma c = true ∨ c = '.' := by
  intro l
  induction l with
  | nil => intro r h; simp [amtSearch1] at h
  | cons c cs ih =>
    intro r h
    by_cases hc : digitComma c
    · rw [amtSearch1, if_pos hc] at h
      split at h
      · split at h
        · injection h with h
          subst h
          intro x hx
          rcases List.mem_append.mp hx with hx | hx
          · exact Or.inl (List.mem_takeWhile_imp hx)
          · simp only [List.mem_cons, List.not_mem_nil, or_false] at hx
            rcases hx with rfl | rfl | rfl
            · exact Or.inr rfl
            · exact Or.inl (isDigit_digitComma (by simp_all))
            · exact Or.inl (isDigit_digitComma (by simp_all))
        · exact ih h
      · exact ih h
    · rw [amtSearch1, if_neg hc] at h
      exact ih h

theorem amtSearch2_chars :
    ∀ {l r : List Char}, amtSearch2 l = some r → ∀ c ∈ r, digitComma c = true ∨ c = '.' := by
  intro l
  induction l with
  | nil => intro r h; simp [amtSearch2] at h
  | cons c cs ih =>
    intro r h
    by_cases hc : digitComma c
    · rw [amtSearch2, if_pos hc] at h
      split at h
      · split at h
        · injection h with h
          subst h
          intro x hx
          rcases List.mem_append.mp hx with hx | hx
          · exact Or.inl (List.mem_takeWhile_imp hx)
          · simp only [List.mem_cons, List.not_mem_nil, or_false] at hx
            rcases hx with rfl | rfl
            · exact Or.inr rfl
            · exact Or.inl (isDigit_digitComma (by simp_all))
        · exact ih h
      · exact ih h
    · rw [amtSearch2, if_neg hc] at h
      exact ih h

theorem amtSearch3_chars :
    ∀ {l r : List Char}, amtSearch3 l = some r → ∀ c ∈ r, digitComma c = true ∨ c = '.' := by
  intro l
  induction l with
  | nil => intro r h; simp [amtSearch3] at h
  | cons c cs ih =>
    intro r h
    by_cases hc : digitComma c
    · rw [amtSearch3, if_pos hc] at h
      injection h with h
      subst h
      intro x hx
      exact Or.inl (List.mem_takeWhile_imp hx)
    · rw [amtSearch3, if_neg hc] at h
      exact ih h

theorem amtSearch4_chars :
    ∀ {l r : List Char}, amtSearch4 l = some r → ∀ c ∈ r, digitComma c = true ∨ c = '.' := by
  intro l
  induction l with
  | nil => intro r h; simp [amtSearch4] at h
  | cons c cs ih =>
    intro r h
    by_cases hc : c.isDigit
    · rw [amtSearch4, if_pos hc] at h
      split at h
      · split at h
        · injection h with h
          subst h
          intro x hx
          rcases List.mem_append.mp hx with hx | hx
          · exact Or.inl (isDigit_digitComma (List.mem_takeWhile_imp hx))
          · simp only [List.mem_cons, List.not_mem_nil, or_false] at hx
            rcases hx with rfl | rfl | rfl
            · exact Or.inr rfl
            · exact Or.inl (isDigit_digitComma (by simp_all))
            · exact Or.inl (isDigit_digitComma (by simp_all))
        · exact ih h
      · exact ih h
    · rw [amtSearch4, if_neg hc] at h
      exact ih h

theorem amtSearch5_chars :
    ∀ {l r : List Char}, amtSearch5 l = some r → ∀ c ∈ r, digitComma c = true ∨ c = '.' := by
  intro l
  induction l with
  | nil => intro r h; simp [amtSearch5] at h
  | cons c cs ih =>
    intro r h
    by_cases hc : c.isDigit
    · rw [amtSearch5, if_pos hc] at h
      split at h
      · split at h
        · injection h with h
          subst h
          intro x hx
          rcases List.mem_append.mp hx with hx | hx
          · exact Or.inl (isDigit_digitComma (List.mem_takeWhile_imp hx))
          · simp only [List.mem_cons, List.not_mem_nil, or_false] at hx
            rcases hx with rfl | rfl
            · exact Or.inr rfl
            · exact Or.inl (isDigit_digitComma (by simp_all))
        · exact ih h
      · exact ih h
    · rw [amtSearch5, if_neg hc] at h
      exact ih h

theorem amtSearch6_chars :
    ∀ {l r : List Char}, amtSearch6 l = some r → ∀ c ∈ r, digitComma c = true ∨ c = '.' := by
  intro l
  induction l with
  | nil => intro r h; simp [amtSearch6] at h
  | cons c cs ih =>
    intro r h
    rw [amtSearch6] at h
    split at h
    · split at h
      · injection h with h
        subst h
        intro x hx
        rcases List.mem_append.mp hx with hx | hx
        · exact Or.inl (List.mem_takeWhile_imp hx)
        · simp only [List.mem_cons] at hx
          rcases hx with rfl | rfl | hmem
          · exact Or.inr rfl
          · exact Or.inl (isDigit_digitComma (by simp_all))
          · exact Or.inl (isDigit_digitComma (List.mem_takeWhile_imp hmem))
      · split at h
        · injection h with h
          subst h
          intro x hx
          exact Or.inl (List.mem_takeWhile_imp (upToLastDigit_subset hx))
        · exact ih h
    · split at h
      · injection h with h
        subst h
        intro x hx
        exact Or.inl (List.mem_takeWhile_imp (upToLastDigit_subset hx))
      · exact ih h

theorem clean_amount_string_chars {s : String} {e : List Char}
    (h : clean_amount_string s = some e) : ∀ c ∈ e, digitComma c = true ∨ c = '.' := by
  simp only [clean_amount_string] at h
  split at h
  · rename_i heq
    injection h with h
    subst h
    exact amtSearch1_chars heq
  · split at h
    · rename_i heq
      injection h with h
      subst h
      exact amtSearch2_chars heq
    · split at h
      · rename_i heq
        injection h with h
        subst h
        exact amtSearch3_chars heq
      · split at h
        · rename_i heq
          injection h with h
          subst h
          exact amtSearch4_chars heq
        · split at h
          · rename_i heq
            injection h with h
            subst h
            exact amtSearch5_chars heq
          · exact amtSearch6_chars h
theorem pyFloat_nonneg {l : List Char} {q : ℚ} (hm : l.head? ≠ some '-')
    (h : pyFloat l = some q) : 0 ≤ q := by
  have hneg : (decide (l.head? = some '-')) = false := decide_eq_false hm
  simp only [pyFloat, hneg] at h
  split at h
  · cases h
  · split at h
    · injection h with h
      subst h
      rw [Rat.mkRat_eq_div]
      rw [if_neg (by simp)]
      positivity
    · cases h

theorem roundHalfEven_nonneg {q : ℚ} (h : 0 ≤ q) : 0 ≤ roundHalfEven q := by
  have hf : 0 ≤ Int.fdiv q.num q.den :=
    Int.fdiv_nonneg (Rat.num_nonneg.mpr h) (Int.natCast_nonneg _)
  simp only [roundHalfEven]
  split
  · exact hf
  · split
    · omega
    · split
      · exact hf
      · omega

theorem qMul100_nonneg {q : ℚ} (h : 0 ≤ q) : 0 ≤ qMul100 q := by
  unfold qMul100
  rw [Rat.mkRat_eq_div]
  have : (0 : ℤ) ≤ q.num * 100 := by
    have := Rat.num_nonneg.mpr h
    positivity
  positivity

/-- Part A: a successful `parse_amount` yields a nonnegative number of
cents over 100. -/
theorem parse_amount_shape (s : String) (v : ℚ) (h : parse_amount s = some v) :
    ∃ n : ℕ, v = mkRat n 100 := by
  simp only [parse_amount] at h
  split at h
  · cases h
  · cases hclean : clean_amount_string s with
    | none => rw [hclean] at h; cases h
    | some e =>
      rw [hclean] at h
      cases e with
      | nil => simp at h
      | cons c0 rest =>
        dsimp only at h
        cases hq : pyFloat ((c0 :: rest).filter fun c => c ≠ ',') with
        | none => rw [hq] at h; cases h
        | some q =>
          rw [hq] at h
          injection h with h
          subst h
          have hchars := clean_amount_string_chars hclean
          have hhead : ((c0 :: rest).filter fun c => c ≠ ',').head? ≠ some '-' := by
            cases hf : (c0 :: rest).filter (fun c => c ≠ ',') with
            | nil => simp
            | cons c r2 =>
              have hc : c ∈ (c0 :: rest).filter fun x => x ≠ ',' := by
                rw [hf]; exact List.mem_cons_self _ _
              rcases hchars c (List.mem_of_mem_filter hc) with hd | hd
              · simp only [List.head?_cons]
                intro hcon
                injection hcon with hcon
                subst hcon
                simp [digitComma] at hd
              · subst hd
                simp
          have hq0 : 0 ≤ q := pyFloat_nonneg hhead hq
          have hz : 0 ≤ roundHalfEven (qMul100 q) :=
            roundHalfEven_nonneg (qMul100_nonneg hq0)
          refine ⟨(roundHalfEven (qMul100 q)).toNat, ?_⟩
          unfold round2
          rw [Int.toNat_of_nonneg hz]
/-! ### Claim C8, Part B: formatting a whole number of cents and parsing
it back. -/

theorem takeWhile_app_of (p : α → Bool) (A : List α) (b : α) (B : List α)
    (hA : ∀ c ∈ A, p c = true) (hb : p b = false) :
    (A ++ b :: B).takeWhile p = A ∧ (A ++ b :: B).dropWhile p = b :: B := by
  induction A with
  | nil => simp [List.takeWhile_cons, List.dropWhile_cons, hb]
  | cons a A' ih =>
    have ha : p a = true := hA a (List.mem_cons_self _ _)
    have ih' := ih fun c hc => hA c (List.mem_cons_of_mem _ hc)
    simp [List.takeWhile_cons, List.dropWhile_cons, ha, ih'.1, ih'.2]

theorem digitChar_isDigit (d : ℕ) : (digitChar d).isDigit = true := by
  unfold digitChar
  split <;> decide

theorem digitVal_digitChar {d : ℕ} (h : d < 10) : digitVal (digitChar d) = d := by
  interval_cases d <;> decide

theorem decDigitsAux_lt10 : ∀ (fuel n : ℕ), ∀ d ∈ decDigitsAux fuel n, d < 10 := by
  intro fuel
  induction fuel with
  | zero => intro n d hd; simp [decDigitsAux] at hd
  | succ f ih =>
    intro n d hd
    rw [decDigitsAux] at hd
    split at hd
    · rename_i hn
      rw [List.mem_singleton] at hd
      omega
    · rcases List.mem_cons.mp hd with rfl | hd'
      · exact Nat.mod_lt _ (by omega)
      · exact ih _ d hd'

theorem decDigitsAux_foldr : ∀ (fuel n : ℕ), n ≤ fuel →
    (decDigitsAux fuel n).foldr (fun d acc => d + 10 * acc) 0 = n := by
  intro fuel
  induction fuel with
  | zero => intro n hn; interval_cases n; simp [decDigitsAux]
  | succ f ih =>
    intro n hn
    rw [decDigitsAux]
    split
    · simp
    · rename_i hn10
      have hdiv : n / 10 ≤ f := by omega
      simp only [List.foldr_cons, ih (n / 10) hdiv]
      omega

theorem natVal_append_one (xs : List Char) (c : Char) :
    natVal (xs ++ [c]) = 10 * natVal xs + digitVal c := by
  simp [natVal, List.foldl_append]

theorem natVal_reverse_map :
    ∀ ds : List ℕ, (∀ d ∈ ds, d < 10) →
      natVal ((ds.map digitChar).reverse) = ds.foldr (fun d acc => d + 10 * acc) 0 := by
  intro ds
  induction ds with
  | nil => intro _; simp [natVal]
  | cons d t ih =>
    intro hall
    have hd : d < 10 := hall d (List.mem_cons_self _ _)
    have iht := ih fun x hx => hall x (List.mem_cons_of_mem _ hx)
    simp only [List.map_cons, List.reverse_cons, natVal_append_one, iht,
      List.foldr_cons, digitVal_digitChar hd]
    omega

theorem natVal_decDigits (n : ℕ) : natVal (decDigits n) = n := by
  unfold decDigits decDigitsLE
  rw [natVal_reverse_map _ (decDigitsAux_lt10 (n + 1) n)]
  exact decDigitsAux_foldr (n + 1) n (by omega)

theorem decDigits_ne_nil (n : ℕ) : decDigits n ≠ [] := by
  unfold decDigits decDigitsLE
  rw [decDigitsAux]
  split <;> simp

theorem decDigits_all_digit (n : ℕ) : ∀ c ∈ decDigits n, c.isDigit = true := by
  intro c hc
  unfold decDigits at hc
  rw [List.mem_reverse, List.mem_map] at hc
  obtain ⟨d, -, rfl⟩ := hc
  exact digitChar_isDigit d

theorem group3Aux_subset : ∀ (fuel : ℕ) (l : List Char), ∀ c ∈ group3Aux fuel l,
    c ∈ l ∨ c = ',' := by
  intro fuel
  induction fuel with
  | zero => intro l c hc; exact Or.inl hc
  | succ f ih =>
    intro l c hc
    rw [group3Aux] at hc
    split at hc
    · exact Or.inl hc
    · rcases List.mem_append.mp hc with hc | hc
      · exact Or.inl ((List.take_sublist _ _).mem hc)
      · rcases List.mem_cons.mp hc with rfl | hc'
        · exact Or.inr rfl
        · rcases ih _ c hc' with hm | hm
          · exact Or.inl ((List.drop_sublist _ _).mem hm)
          · exact Or.inr hm

theorem group3Aux_filter : ∀ (fuel : ℕ) (l : List Char), (∀ c ∈ l, c ≠ ',') →
    (group3Aux fuel l).filter (fun c => c ≠ ',') = l := by
  intro fuel
  induction fuel with
  | zero =>
    intro l hl
    simp only [group3Aux]
    rw [List.filter_eq_self]
    intro a ha
    simpa using hl a ha
  | succ f ih =>
    intro l hl
    rw [group3Aux]
    split
    · rw [List.filter_eq_self]
      intro a ha
      simpa using hl a ha
    · rw [List.filter_append, List.filter_cons]
      rw [if_neg (by simp)]
      have h1 : (l.take 3).filter (fun c => c ≠ ',') = l.take 3 := by
        rw [List.filter_eq_self]
        intro a ha
        simpa using hl a ((List.take_sublist _ _).mem ha)
      have h2 := ih (l.drop 3) fun c hc => hl c ((List.drop_sublist _ _).mem hc)
      rw [h1, h2, List.take_append_drop]

theorem groupDigits_filter (ds : List Char) (h : ∀ c ∈ ds, c ≠ ',') :
    (groupDigits ds).filter (fun c => c ≠ ',') = ds := by
  unfold groupDigits
  rw [List.filter_reverse,
    group3Aux_filter _ _ (fun c hc => h c (List.mem_reverse.mp hc)), List.reverse_reverse]

theorem groupDigits_chars (ds : List Char) :
    ∀ c ∈ groupDigits ds, c ∈ ds ∨ c = ',' := by
  intro c hc
  unfold groupDigits at hc
  rw [List.mem_reverse] at hc
  rcases group3Aux_subset _ _ c hc with hm | hm
  · exact Or.inl (List.mem_reverse.mp hm)
  · exact Or.inr hm

theorem groupDigits_ne_nil (ds : List Char) (h : ds ≠ []) : groupDigits ds ≠ [] := by
  unfold groupDigits
  intro hcon
  rw [List.reverse_eq_nil_iff] at hcon
  cases hfuel : ds.length with
  | zero => exact h (List.length_eq_zero.mp hfuel)
  | succ f =>
    rw [hfuel, group3Aux] at hcon
    split at hcon
    · rw [List.reverse_eq_nil_iff] at hcon
      exact h hcon
    · rcases List.append_eq_nil.mp hcon with ⟨h1, -⟩
      rw [List.take_eq_nil_iff] at h1
      rcases h1 with h1 | h1
      · simp at h1
      · rw [List.reverse_eq_nil_iff] at h1
        exact h h1

theorem natVal_pad2 {f : ℕ} (h : f < 100) : natVal (pad2 f) = f := by
  unfold pad2
  split
  · rename_i h10
    have h0 : digitVal '0' = 0 := by decide
    simp [natVal, digitVal_digitChar h10, h0]
  · rename_i h10
    have hq : f / 10 < 10 := by omega
    have hr : f % 10 < 10 := Nat.mod_lt _ (by omega)
    simp [natVal, digitVal_digitChar hq, digitVal_digitChar hr]
    omega

theorem pad2_shape (f : ℕ) :
    ∃ d1 d2 : Char, pad2 f = [d1, d2] ∧ d1.isDigit = true ∧ d2.isDigit = true := by
  unfold pad2
  split
  · exact ⟨'0', digitChar f, rfl, by decide, digitChar_isDigit f⟩
  · exact ⟨digitChar (f / 10), digitChar (f % 10), rfl, digitChar_isDigit _, digitChar_isDigit _⟩
theorem qMul100_eq (q : ℚ) : qMul100 q = q * 100 := by
  unfold qMul100
  rw [Rat.mkRat_eq_div]
  push_cast
  rw [mul_comm (q.num : ℚ) 100, mul_div_assoc, Rat.num_div_den, mul_comm]

theorem roundHalfEven_intCast (z : ℤ) : roundHalfEven ((z : ℚ)) = z := by
  simp only [roundHalfEven, Rat.num_intCast, Rat.den_intCast, Nat.cast_one, Int.fdiv_one]
  norm_num

theorem roundHalfEven_qMul100_cents (n : ℕ) : roundHalfEven (qMul100 (mkRat n 100)) = n := by
  have h1 : qMul100 (mkRat (n : ℤ) 100) = ((n : ℤ) : ℚ) := by
    rw [qMul100_eq, Rat.mkRat_eq_div]
    push_cast
    field_simp
  rw [h1, roundHalfEven_intCast]

theorem mkRat_cents_nonneg (n : ℕ) : 0 ≤ mkRat (n : ℤ) 100 := by
  rw [Rat.mkRat_eq_div]
  positivity

theorem qIsNeg_of_nonneg {q : ℚ} (h : 0 ≤ q) : qIsNeg q = false := by
  unfold qIsNeg
  simp only [decide_eq_false_iff_not, not_lt]
  exact Rat.num_nonneg.mpr h

theorem qAbs_of_nonneg {q : ℚ} (h : 0 ≤ q) : qAbs q = q := by
  unfold qAbs
  rw [abs_of_nonneg (Rat.num_nonneg.mpr h), Rat.mkRat_self]

theorem isDigit_ne_dot {c : Char} (h : c.isDigit = true) : c ≠ '.' := by
  intro hcon
  subst hcon
  simp at h

theorem isDigit_ne_comma {c : Char} (h : c.isDigit = true) : c ≠ ',' := by
  intro hcon
  subst hcon
  simp at h

theorem splitDot_canonical (ip fp : List Char) (hip : ∀ c ∈ ip, c ≠ '.')
    (hfp : ∀ c ∈ fp, c ≠ '.') :
    splitDot (ip ++ '.' :: fp) = some (ip, fp) := by
  have h := takeWhile_app_of (fun c => c ≠ '.') ip '.' fp
    (fun c hc => by simpa using hip c hc) (by simp)
  have hnc : fp.contains '.' = false := by
    rw [Bool.eq_false_iff]
    intro hc
    rw [List.contains_eq_any_beq, List.any_eq_true] at hc
    obtain ⟨c, hcm, hcb⟩ := hc
    have hcc : '.' = c := by simpa using hcb
    exact hfp c hcm hcc.symm
  unfold splitDot
  rw [h.2, h.1]
  dsimp only
  rw [if_neg (by rw [hnc]; exact Bool.false_ne_true)]

theorem pyFloat_canonical (ip fp : List Char) (hip : ∀ c ∈ ip, c.isDigit = true)
    (hfp : ∀ c ∈ fp, c.isDigit = true) (hne : ip ≠ []) :
    pyFloat (ip ++ '.' :: fp) =
      some (mkRat ((natVal ip : ℤ) * 10 ^ fp.length + (natVal fp : ℤ)) (10 ^ fp.length)) := by
  obtain ⟨c0, ip', rfl⟩ : ∃ c0 ip', ip = c0 :: ip' := by
    cases ip with
    | nil => cases hne rfl
    | cons a b => exact ⟨a, b, rfl⟩
  have hc0 : c0.isDigit = true := hip c0 (List.mem_cons_self _ _)
  have hhead : ((c0 :: ip') ++ '.' :: fp).head? = some c0 := rfl
  have hm : ¬(((c0 :: ip') ++ '.' :: fp).head? = some '-' ∨
      ((c0 :: ip') ++ '.' :: fp).head? = some '+') := by
    rw [hhead]
    rintro (hcon | hcon)
    · injection hcon with hcon
      subst hcon
      simp at hc0
    · injection hcon with hcon
      subst hcon
      simp at hc0
  have hneg : (decide (((c0 :: ip') ++ '.' :: fp).head? = some '-')) = false := by
    rw [decide_eq_false_iff_not]
    intro hcon
    exact hm (Or.inl hcon)
  simp only [pyFloat, hneg, if_neg hm]
  rw [splitDot_canonical _ _ (fun c hc => isDigit_ne_dot (hip c hc))
    (fun c hc => isDigit_ne_dot (hfp c hc))]
  dsimp only
  rw [if_pos ⟨by
      rw [List.all_eq_true]
      intro c hc
      rcases List.mem_append.mp hc with hc | hc
      · exact hip c hc
      · exact hfp c hc,
    by simp⟩]
  norm_num

theorem amtSearch1_exact (G : List Char) (d1 d2 : Char)
    (hG : ∀ c ∈ G, digitComma c = true) (hGne : G ≠ [])
    (h1 : d1.isDigit = true) (h2 : d2.isDigit = true) :
    amtSearch1 (G ++ ['.', d1, d2]) = some (G ++ ['.', d1, d2]) := by
  obtain ⟨c0, G', rfl⟩ : ∃ c0 G', G = c0 :: G' := by
    cases G with
    | nil => cases hGne rfl
    | cons a b => exact ⟨a, b, rfl⟩
  have hsplit := takeWhile_app_of digitComma (c0 :: G') '.' [d1, d2] hG (by decide)
  have hc0 : digitComma c0 = true := hG c0 (List.mem_cons_self _ _)
  rw [List.cons_append, amtSearch1, if_pos (by simpa using hc0)]
  rw [show (c0 :: (G' ++ ['.', d1, d2])) = ((c0 :: G') ++ ['.', d1, d2]) from rfl]
  rw [hsplit.2, hsplit.1]
  show (if (d1.isDigit && d2.isDigit) = true then some (c0 :: (G' ++ ['.', d1, d2]))
      else amtSearch1 (G' ++ ['.', d1, d2])) = _
  rw [if_pos (by simp [h1, h2])]
  rfl

theorem pyStripL_eq_self {l : List Char} (h : ∀ c ∈ l, pySpace c = false) :
    pyStripL l = l := by
  have hdrop : ∀ m : List Char, (∀ c ∈ m, pySpace c = false) → m.dropWhile pySpace = m := by
    intro m hm
    cases m with
    | nil => rfl
    | cons a t =>
      rw [List.dropWhile_cons, if_neg (by simp [hm a (List.mem_cons_self _ _)])]
  unfold pyStripL
  rw [hdrop _ h, hdrop _ (fun c hc => h c (List.mem_reverse.mp hc)), List.reverse_reverse]
theorem digitComma_not_space {c : Char} (h : digitComma c = true) : pySpace c = false := by
  rw [Bool.eq_false_iff]
  intro hs
  simp only [pySpace, Bool.or_eq_true, decide_eq_true_eq] at hs
  rcases hs with ((((rfl | rfl) | rfl) | rfl) | rfl) | rfl <;> simp [digitComma] at h

theorem digitComma_ne_lparen {c : Char} (h : digitComma c = true) : c ≠ '(' := by
  intro hcon
  subst hcon
  simp [digitComma] at h

set_option maxHeartbeats 1000000 in
/-- Part B: formatting a whole number of cents and parsing the result
recovers exactly that value. -/
theorem parse_format_cents (n : ℕ) :
    parse_amount (format_amount (mkRat (n : ℤ) 100) false) = some (mkRat (n : ℤ) 100) := by
  have hv0 : 0 ≤ mkRat (n : ℤ) 100 := mkRat_cents_nonneg n
  obtain ⟨d1, d2, hp, hd1, hd2⟩ := pad2_shape (n % 100)
  have hfmt : format_amount (mkRat (n : ℤ) 100) false =
      String.mk (groupDigits (decDigits (n / 100)) ++ '.' :: [d1, d2]) := by
    simp only [format_amount, qIsNeg_of_nonneg hv0, qAbs_of_nonneg hv0,
      Bool.false_eq_true, if_false, pyFormatComma2, roundHalfEven_qMul100_cents,
      Int.toNat_natCast, hp]
  have hGc : ∀ c ∈ groupDigits (decDigits (n / 100)), digitComma c = true := by
    intro c hc
    rcases groupDigits_chars _ c hc with hm | rfl
    · exact isDigit_digitComma (decDigits_all_digit _ c hm)
    · simp [digitComma]
  have hGne : groupDigits (decDigits (n / 100)) ≠ [] :=
    groupDigits_ne_nil _ (decDigits_ne_nil _)
  obtain ⟨c0, G', hGc0⟩ : ∃ c0 G',
      groupDigits (decDigits (n / 100)) = c0 :: G' := by
    cases hE : groupDigits (decDigits (n / 100)) with
    | nil => cases hGne hE
    | cons a b => exact ⟨a, b, rfl⟩
  have hL : groupDigits (decDigits (n / 100)) ++ '.' :: [d1, d2] =
      c0 :: (G' ++ '.' :: [d1, d2]) := by
    rw [hGc0]
    rfl
  have hstrip : pyStripL (groupDigits (decDigits (n / 100)) ++ '.' :: [d1, d2]) =
      groupDigits (decDigits (n / 100)) ++ '.' :: [d1, d2] := by
    refine pyStripL_eq_self fun c hc => ?_
    rcases List.mem_append.mp hc with hc | hc
    · exact digitComma_not_space (hGc c hc)
    · simp only [List.mem_cons, List.not_mem_nil, or_false] at hc
      rcases hc with rfl | rfl | rfl
      · decide
      · exact digitComma_not_space (isDigit_digitComma hd1)
      · exact digitComma_not_space (isDigit_digitComma hd2)
  have hhead : (pyStripL (groupDigits (decDigits (n / 100)) ++ '.' :: [d1, d2])).head? ≠
      some '(' := by
    rw [hstrip, hL]
    intro hcon
    injection hcon with hcon
    exact digitComma_ne_lparen (hGc c0 (by rw [hGc0]; exact List.mem_cons_self _ _)) hcon
  have hclean : clean_amount_string
      (String.mk (groupDigits (decDigits (n / 100)) ++ '.' :: [d1, d2])) =
      some (groupDigits (decDigits (n / 100)) ++ '.' :: [d1, d2]) := by
    simp only [clean_amount_string]
    rw [if_neg fun hand => hhead hand.1]
    rw [hstrip]
    rw [amtSearch1_exact _ d1 d2 hGc hGne hd1 hd2]
  have hfilter : (c0 :: (G' ++ '.' :: [d1, d2])).filter (fun c => c ≠ ',') =
      decDigits (n / 100) ++ '.' :: [d1, d2] := by
    rw [← hL, List.filter_append,
      groupDigits_filter _ (fun c hc => isDigit_ne_comma (decDigits_all_digit _ c hc))]
    congr 1
    rw [List.filter_cons, if_pos (by simp), List.filter_cons,
      if_pos (by simp [isDigit_ne_comma hd1]), List.filter_cons,
      if_pos (by simp [isDigit_ne_comma hd2]), List.filter_nil]
  have hfloat : pyFloat (decDigits (n / 100) ++ '.' :: [d1, d2]) =
      some (mkRat (n : ℤ) 100) := by
    rw [pyFloat_canonical _ _ (decDigits_all_digit _) (by
        intro c hc
        simp only [List.mem_cons, List.not_mem_nil, or_false] at hc
        rcases hc with rfl | rfl
        · exact hd1
        · exact hd2) (decDigits_ne_nil _)]
    congr 1
    have hval2 : natVal [d1, d2] = n % 100 := by
      rw [← hp]
      exact natVal_pad2 (Nat.mod_lt _ (by omega))
    have hlen : ([d1, d2] : List Char).length = 2 := rfl
    have hpowZ : ((10 : ℤ) ^ 2) = 100 := by norm_num
    have hpowN : ((10 : ℕ) ^ 2) = 100 := by norm_num
    rw [hlen, natVal_decDigits, hval2, hpowZ, hpowN]
    have hnum : ((n / 100 : ℕ) : ℤ) * 100 + ((n % 100 : ℕ) : ℤ) = (n : ℤ) := by omega
    rw [hnum]
  have hround : round2 (mkRat (n : ℤ) 100) = mkRat (n : ℤ) 100 := by
    unfold round2
    rw [roundHalfEven_qMul100_cents]
  simp only [hfmt, parse_amount]
  rw [if_neg (by rw [hL]; simp)]
  rw [hclean, hL]
  dsimp only
  rw [hfilter, hfloat]
  dsimp only
  rw [hround]

/-- Claim C8 (confirmed): for every amount string on which
`parse_amount` succeeds, formatting the parsed value with
`format_amount` and parsing it again returns the same number. -/
theorem c8_parse_format_roundtrip (s : String) (v : ℚ) (h : parse_amount s = some v) :
    parse_amount (format_amount v false) = some v := by
  obtain ⟨n, rfl⟩ := parse_amount_shape s v h
  exact parse_format_cents n

theorem c8_witness :
    parse_amount "1,234.56" = some (mkRat 123456 100) ∧
    parse_amount (format_amount (mkRat 123456 100) false) = some (mkRat 123456 100) :=
  ⟨by decide, c8_parse_format_roundtrip "1,234.56" (mkRat 123456 100) (by decide)⟩

/-- Claim C4 (code bug): the spec and the comment in
`AmountParser.parse_amount` both say a parenthesized amount such as
`"(1,234.56)"` is interpreted as the negative number `-1234.56`, and
`_clean_amount_string` does prepend a minus sign after stripping the
parentheses; but none of the six extraction regexes it then applies
admits a leading `-`, so `re.search` returns the digit span without the
sign and the minus is silently dropped: the extracted text is
`"1,234.56"` and `parse_amount` returns the positive value `1234.56`,
not `-1234.56` as claimed. -/
theorem c4_paren_amount_positive :
    clean_amount_string "(1,234.56)" = some "1,234.56".data ∧
    parse_amount "(1,234.56)" = some (mkRat 123456 100) ∧
    parse_amount "(1,234.56)" ≠ some (mkRat (-123456) 100) := by
  refine ⟨by decide, by decide, by decide⟩
